import Mathlib

/-!
# Limit order book: matching engine (`Orderbook.cpp`)

A shallow embedding of the class `Ordebook` and the value types it works on,
followed by the properties proved about it.

Modelling conventions.

* `Price` (`int32_t`) is `Int`; `Quantity` (`uint32_t`) and `OrderID`
  (`uint64_t`) are `Nat`.  The only arithmetic that can leave the machine range
  is the per-level sum of `GetOrderInfos`, which is reduced modulo `2 ^ 32`.
* `std::map<Price, OrderPointers, Cmp>` is the list of its nodes in iteration
  order, `std::list<OrderPointer>` is a list, `std::unordered_map` (whose
  iteration order is never observed) is the list of its nodes ordered by key.
* An `Order` object is shared between the node of its level and its entry in
  `orders_`.  The embedding keeps the object's value at both places, and a
  mutation through one pointer (`Fill`) is written to both.
* `OrderEntry::location_` is the handle to the node that carries the order in
  its level; nodes are told apart by the order id they carry, so erasing
  through the handle removes the node with that id.
* A C++ exception is an `Except.error`.  Reading through a handle or reference
  whose target is gone, and `front()` of an empty list, are reported as
  `Error.undefined`.
* The two `while` loops of `MatchOrders` take a step budget.
-/

namespace LimitOrderbook

/-! ## Value types -/

inductive OrderType where
  | GoodTillCancel
  | FillandKill
deriving DecidableEq, Repr

inductive Side where
  | Buy
  | Sell
deriving DecidableEq, Repr

abbrev Price := Int
abbrev Quantity := Nat
abbrev OrderID := Nat

structure LevelInfo where
  price_ : Price
  quantity_ : Quantity
deriving DecidableEq, Repr

abbrev LevelInfos := List LevelInfo

structure OrderbookLevelInfos where
  bids_ : LevelInfos
  asks_ : LevelInfos
deriving DecidableEq, Repr

/-- Ways in which a call can fail to return normally. -/
inductive Error where
  | logic_error
  | out_of_range
  | undefined
  | out_of_fuel
deriving DecidableEq, Repr

structure Order where
  orderType_ : OrderType
  orderId_ : OrderID
  side_ : Side
  price_ : Price
  intialQuantity_ : Quantity
  remainingQuantity_ : Quantity
deriving DecidableEq, Repr

/-- Constructor `Order(orderType, orderId, side, price, quantity)`. -/
def Order.new (orderType : OrderType) (orderId : OrderID) (side : Side) (price : Price)
    (quantity : Quantity) : Order :=
  { orderType_ := orderType, orderId_ := orderId, side_ := side, price_ := price,
    intialQuantity_ := quantity, remainingQuantity_ := quantity }

def Order.IsFilled (o : Order) : Bool :=
  o.remainingQuantity_ == 0

def Order.Fill (o : Order) (quantity : Quantity) : Except Error Order :=
  if quantity > o.remainingQuantity_ then
    .error Error.logic_error
  else
    .ok { o with remainingQuantity_ := o.remainingQuantity_ - quantity }

abbrev OrderPointers := List Order

structure OrderModify where
  orderId_ : OrderID
  side_ : Side
  price_ : Price
  quantity_ : Quantity
deriving DecidableEq, Repr

def OrderModify.ToOrderPointer (m : OrderModify) (type : OrderType) : Order :=
  Order.new type m.orderId_ m.side_ m.price_ m.quantity_

structure TradeInfo where
  orderId_ : OrderID
  price_ : Price
  quantity_ : Quantity
deriving DecidableEq, Repr

structure Trade where
  bidTrade_ : TradeInfo
  askTrade_ : TradeInfo
deriving DecidableEq, Repr

abbrev Trades := List Trade

/-! ## Associative containers -/

section Containers

variable {κ : Type} {ν : Type} [DecidableEq κ]

/-- Lookup of a key (`find`, `at`): the value of the first node with that key. -/
def mapFind? : List (κ × ν) → κ → Option ν
  | [], _ => none
  | (k, v) :: rest, key => if k = key then some v else mapFind? rest key

def mapContains (m : List (κ × ν)) (key : κ) : Bool :=
  (mapFind? m key).isSome

/-- The call `erase(key)`. -/
def mapErase (m : List (κ × ν)) (key : κ) : List (κ × ν) :=
  m.filter (fun e => decide (e.1 ≠ key))

/-- Assignment through a reference to the mapped value of `key`. -/
def mapSet (m : List (κ × ν)) (key : κ) (v : ν) : List (κ × ν) :=
  m.map (fun e => if e.1 = key then (e.1, v) else e)

/-- Insertion of a node at the place the comparator `before` gives it. -/
def insertNode (before : κ → κ → Bool) : List (κ × ν) → κ → ν → List (κ × ν)
  | [], key, v => [(key, v)]
  | (k, w) :: rest, key, v =>
    if before key k then (key, v) :: (k, w) :: rest
    else (k, w) :: insertNode before rest key v

/-- The call `insert({key, v})`, and `operator[]` with `v` the default value:
nothing happens when the key is present. -/
def mapInsert (before : κ → κ → Bool) (m : List (κ × ν)) (key : κ) (v : ν) : List (κ × ν) :=
  if mapContains m key then m else insertNode before m key v

end Containers

/-- Contents of the level reached through a reference to the list stored under
`price`; a level that is not in the map reads as the empty list. -/
def levelAt (m : List (Price × OrderPointers)) (price : Price) : OrderPointers :=
  (mapFind? m price).getD []

/-- Comparator `std::greater<Price>` of `bids_`. -/
def greater (a b : Price) : Bool := decide (a > b)

/-- Comparator `std::less<Price>` of `asks_`. -/
def less (a b : Price) : Bool := decide (a < b)

/-- Key order of `orders_` in the embedding. -/
def idBefore (a b : OrderID) : Bool := decide (a < b)

/-- Statements `auto& orders = side[price]; orders.push_back(order);`. -/
def pushBack (before : Price → Price → Bool) (m : List (Price × OrderPointers))
    (price : Price) (order : Order) : List (Price × OrderPointers) :=
  let m1 := mapInsert before m price []
  mapSet m1 price (levelAt m1 price ++ [order])

/-- The call `orders.erase(iterator)` for the handle kept under `orderId`:
removes the node carrying that id; `none` when no such node is in the list. -/
def eraseNode : OrderPointers → OrderID → Option OrderPointers
  | [], _ => none
  | o :: rest, orderId =>
    if o.orderId_ = orderId then some rest
    else (eraseNode rest orderId).map (fun r => o :: r)

/-! ## The order book -/

structure OrderEntry where
  order_ : Order
deriving DecidableEq, Repr

structure Ordebook where
  bids_ : List (Price × OrderPointers)
  asks_ : List (Price × OrderPointers)
  orders_ : List (OrderID × OrderEntry)
deriving DecidableEq, Repr

namespace Ordebook

/-- A default-constructed book. -/
def empty : Ordebook :=
  { bids_ := [], asks_ := [], orders_ := [] }

def CanMatch (b : Ordebook) (side : Side) (price : Price) : Bool :=
  if side = Side.Buy then
    match b.asks_ with
    | [] => false
    | (bestAsk, _) :: _ => decide (price ≥ bestAsk)
  else
    match b.bids_ with
    | [] => false
    | (bestBid, _) :: _ => decide (price ≤ bestBid)

def CancelOrder (b : Ordebook) (orderId : OrderID) : Except Error Ordebook :=
  match mapFind? b.orders_ orderId with
  | none => .ok b
  | some entry =>
    let order := entry.order_
    let price := order.price_
    if order.side_ = Side.Sell then
      match mapFind? b.asks_ price with
      | none => .error Error.out_of_range
      | some orders =>
        match eraseNode orders orderId with
        | none => .error Error.undefined
        | some orders1 =>
          let asks1 := if orders1.isEmpty then mapErase b.asks_ price
            else mapSet b.asks_ price orders1
          .ok { b with asks_ := asks1, orders_ := mapErase b.orders_ orderId }
    else
      match mapFind? b.bids_ price with
      | none => .error Error.out_of_range
      | some orders =>
        match eraseNode orders orderId with
        | none => .error Error.undefined
        | some orders1 =>
          let bids1 := if orders1.isEmpty then mapErase b.bids_ price
            else mapSet b.bids_ price orders1
          .ok { b with bids_ := bids1, orders_ := mapErase b.orders_ orderId }

/-- Effect of a mutation of the object `o` on the entry of `orders_` that
points to it. -/
def shareOrder (orders : List (OrderID × OrderEntry)) (o : Order) : List (OrderID × OrderEntry) :=
  mapSet orders o.orderId_ { order_ := o }

/-- Inner loop of `MatchOrders`: `while (bids.size() && asks.size())`, where
`bids` and `asks` refer to the levels stored under `bidPrice` and `askPrice`,
and `bid` and `ask` are references to the front nodes of the two lists.  When
`bid` is filled, `bids.pop_front()` destroys the node that `bid` refers to, and
the statement that follows, `orders_.erase(bid->GetOrderID())`, reads through
`bid`: the iteration ends as `Error.undefined`.  The same holds of `ask`.  An
iteration that fills neither order pops no node and erases no level; it emits
its trade and the loop goes on. -/
def matchLevels : Nat → Price → Price → Ordebook → Trades → Except Error (Ordebook × Trades)
  | 0, _, _, _, _ => .error Error.out_of_fuel
  | fuel + 1, bidPrice, askPrice, b, trades =>
    match levelAt b.bids_ bidPrice, levelAt b.asks_ askPrice with
    | bid0 :: bidsRest, ask0 :: asksRest =>
      let quantity := min bid0.remainingQuantity_ ask0.remainingQuantity_
      match bid0.Fill quantity with
      | .error e => .error e
      | .ok bid =>
        match ask0.Fill quantity with
        | .error e => .error e
        | .ok ask =>
          if bid.IsFilled then .error Error.undefined
          else if ask.IsFilled then .error Error.undefined
          else
            let orders1 := shareOrder (shareOrder b.orders_ bid) ask
            let bidSide := mapSet b.bids_ bidPrice (bid :: bidsRest)
            let askSide := mapSet b.asks_ askPrice (ask :: asksRest)
            let bidside : TradeInfo :=
              { orderId_ := bid.orderId_, price_ := bid.price_, quantity_ := quantity }
            let sellside : TradeInfo :=
              { orderId_ := ask.orderId_, price_ := ask.price_, quantity_ := quantity }
            matchLevels fuel bidPrice askPrice
              { bids_ := bidSide, asks_ := askSide, orders_ := orders1 }
              (trades ++ [{ bidTrade_ := bidside, askTrade_ := sellside }])
    | _, _ => .ok (b, trades)

/-- Outer loop of `MatchOrders`: `while (true)`. -/
def matchLoop : Nat → Ordebook → Trades → Except Error (Ordebook × Trades)
  | 0, _, _ => .error Error.out_of_fuel
  | fuel + 1, b, trades =>
    match b.asks_, b.bids_ with
    | (askPrice, _) :: _, (bidPrice, _) :: _ =>
      if bidPrice < askPrice then .ok (b, trades)
      else
        match matchLevels fuel bidPrice askPrice b trades with
        | .error e => .error e
        | .ok (b1, trades1) => matchLoop fuel b1 trades1
    | _, _ => .ok (b, trades)

/-- One of the two blocks that follow the loops of `MatchOrders`: the front
order of the best level of a side is cancelled when it is a FillandKill order. -/
def cancelFrontFillandKill (side : List (Price × OrderPointers)) (b : Ordebook) :
    Except Error Ordebook :=
  match side with
  | [] => .ok b
  | (_, []) :: _ => .error Error.undefined
  | (_, order :: _) :: _ =>
    if order.orderType_ = OrderType.FillandKill then b.CancelOrder order.orderId_
    else .ok b

def MatchOrders (fuel : Nat) (b : Ordebook) : Except Error (Trades × Ordebook) :=
  match matchLoop fuel b [] with
  | .error e => .error e
  | .ok (b1, trades) =>
    match cancelFrontFillandKill b1.bids_ b1 with
    | .error e => .error e
    | .ok b2 =>
      match cancelFrontFillandKill b2.asks_ b2 with
      | .error e => .error e
      | .ok b3 => .ok (trades, b3)

/-- Number of orders held in the levels of one side. -/
def sideCount (side : List (Price × OrderPointers)) : Nat :=
  (side.map (fun l => l.2.length)).sum

/-- Step budget given to the loops of `MatchOrders`.  No call of `AddOrder` on a
book that satisfies the invariant `Inv` exhausts it: see `AddOrder_returned` and
`AddOrder_crossing`. -/
def matchFuel (b : Ordebook) : Nat :=
  sideCount b.bids_ + sideCount b.asks_ + 2

/-- The book of `AddOrder` at the call of `MatchOrders`: the order is at the
back of its level and in `orders_`. -/
def insertOrder (b : Ordebook) (order : Order) : Ordebook :=
  let b1 : Ordebook :=
    if order.side_ = Side.Buy then
      { b with bids_ := pushBack greater b.bids_ order.price_ order }
    else
      { b with asks_ := pushBack less b.asks_ order.price_ order }
  { b1 with orders_ := mapInsert idBefore b1.orders_ order.orderId_ { order_ := order } }

def AddOrder (b : Ordebook) (order : Order) : Except Error (Trades × Ordebook) :=
  if mapContains b.orders_ order.orderId_ then
    .ok ([], b)
  else if order.orderType_ = OrderType.FillandKill
      ∧ ¬ b.CanMatch order.side_ order.price_ then
    .ok ([], b)
  else
    let b1 := b.insertOrder order
    MatchOrders (matchFuel b1) b1

/-- The member function `MatchOrder(OrderModify)`, the modify operation. -/
def MatchOrder (b : Ordebook) (order : OrderModify) : Except Error (Trades × Ordebook) :=
  if mapContains b.orders_ order.orderId_ then
    .ok ([], b)
  else
    match mapFind? b.orders_ order.orderId_ with
    | none => .error Error.out_of_range
    | some existing =>
      match b.CancelOrder order.orderId_ with
      | .error e => .error e
      | .ok b1 => b1.AddOrder (order.ToOrderPointer existing.order_.orderType_)

def Size (b : Ordebook) : Nat :=
  b.orders_.length

/-- The lambda `CreateLevelInfos` of `GetOrderInfos`; the running sum is a
`uint32_t`. -/
def CreateLevelInfos (price : Price) (orders : OrderPointers) : LevelInfo :=
  { price_ := price,
    quantity_ := orders.foldl (fun runningSum order =>
      (runningSum + order.remainingQuantity_) % 2 ^ 32) 0 }

def GetOrderInfos (b : Ordebook) : OrderbookLevelInfos :=
  { bids_ := b.bids_.map (fun l => CreateLevelInfos l.1 l.2),
    asks_ := b.asks_.map (fun l => CreateLevelInfos l.1 l.2) }

end Ordebook

open Ordebook

/-! ## Notions used in the statements and proofs -/

/-- The keys of the nodes follow each other in the order of the comparator. -/
def SortedBy {κ ν : Type} (before : κ → κ → Bool) (m : List (κ × ν)) : Prop :=
  (m.map Prod.fst).Pairwise (fun a b => before a b = true)

/-- Properties of a comparator that make it a strict total order. -/
structure StrictTotal {κ : Type} (before : κ → κ → Bool) : Prop where
  irrefl : ∀ a, before a a = false
  trans : ∀ a b c, before a b = true → before b c = true → before a c = true
  total : ∀ a b, a ≠ b → before a b = false → before b a = true

/-- All orders of a side, best level first, each level front to back. -/
def sideOrders (side : List (Price × OrderPointers)) : List Order :=
  side.flatMap (fun l => l.2)

/-- Ids of the orders of a side. -/
def sideIds (side : List (Price × OrderPointers)) : List OrderID :=
  (sideOrders side).map (fun o => o.orderId_)

/-- A level without the order with id `i`. -/
def dropFromLevel (i : OrderID) (orders : OrderPointers) : OrderPointers :=
  orders.filter (fun o => !(o.orderId_ == i))

/-- A side without the order with id `i`, and without the level this empties. -/
def dropOrder (i : OrderID) (side : List (Price × OrderPointers)) :
    List (Price × OrderPointers) :=
  (side.map (fun l => (l.1, dropFromLevel i l.2))).filter (fun l => !l.2.isEmpty)

/-- The levels of one side of the book. -/
def Ordebook.side (b : Ordebook) : Side → List (Price × OrderPointers)
  | Side.Buy => b.bids_
  | Side.Sell => b.asks_

/-- Every level of the side `s` is non-empty and holds orders of that side and of
the level's price, each recorded in `orders` under its id. -/
def Placed (s : Side) (side : List (Price × OrderPointers))
    (orders : List (OrderID × OrderEntry)) : Prop :=
  ∀ l ∈ side, l.2 ≠ [] ∧ ∀ o ∈ l.2,
    o.side_ = s ∧ o.price_ = l.1 ∧ mapFind? orders o.orderId_ = some { order_ := o }

/-- Consistency of the three containers of a book. -/
structure WF (b : Ordebook) : Prop where
  bidsSorted : SortedBy greater b.bids_
  asksSorted : SortedBy less b.asks_
  ordersSorted : SortedBy idBefore b.orders_
  bidsPlaced : Placed Side.Buy b.bids_ b.orders_
  asksPlaced : Placed Side.Sell b.asks_ b.orders_
  indexed : ∀ k e, mapFind? b.orders_ k = some e →
    e.order_.orderId_ = k ∧ e.order_ ∈ levelAt (b.side e.order_.side_) e.order_.price_
  nodup : (sideIds b.bids_ ++ sideIds b.asks_).Nodup

/-- The book without the order with id `i`. -/
def Ordebook.without (b : Ordebook) (i : OrderID) : Ordebook :=
  { bids_ := dropOrder i b.bids_
    asks_ := dropOrder i b.asks_
    orders_ := mapErase b.orders_ i }

/-- Number of orders held in the levels of the book. -/
def Ordebook.count (b : Ordebook) : Nat :=
  sideCount b.bids_ + sideCount b.asks_

/-- No bid level is priced at or above an ask level. -/
def Uncrossed (b : Ordebook) : Prop :=
  ∀ lb ∈ b.bids_, ∀ la ∈ b.asks_, lb.1 < la.1

/-- No order of the side is a FillandKill order. -/
def NoFak (side : List (Price × OrderPointers)) : Prop :=
  ∀ o ∈ sideOrders side, o.orderType_ ≠ OrderType.FillandKill

/-- The comparator of the map that holds the side `s`. -/
def comparator : Side → Price → Price → Bool
  | Side.Buy => greater
  | Side.Sell => less

/-- What holds of the book between two calls. -/
structure Inv (b : Ordebook) : Prop where
  wf : WF b
  uncrossed : Uncrossed b
  noFakBids : NoFak b.bids_
  noFakAsks : NoFak b.asks_

/-- Books that a sequence of calls of `AddOrder`, `CancelOrder` and `MatchOrder`
that have returned produces from the empty book.  An order handed to `AddOrder`
is any `Order` object: its remaining quantity is at most its initial one. -/
inductive Reachable : Ordebook → Prop
  | empty : Reachable Ordebook.empty
  | add {b b1 : Ordebook} {trades : Trades} (o : Order) :
      Reachable b → o.remainingQuantity_ ≤ o.intialQuantity_ →
      b.AddOrder o = .ok (trades, b1) → Reachable b1
  | cancel {b b1 : Ordebook} (i : OrderID) :
      Reachable b → b.CancelOrder i = .ok b1 → Reachable b1
  | modify {b b1 : Ordebook} {trades : Trades} (m : OrderModify) :
      Reachable b → b.MatchOrder m = .ok (trades, b1) → Reachable b1

/-- Scenario 1: the empty book after `AddOrder` of GoodTillCancel Buy id 1, 10 @ 100. -/
def scenarioOne : Ordebook :=
  { bids_ := [(100, [Order.new OrderType.GoodTillCancel 1 Side.Buy 100 10])]
    asks_ := []
    orders_ := [(1, { order_ := Order.new OrderType.GoodTillCancel 1 Side.Buy 100 10 })] }

/-- The book of scenario 3: order 1, of initial quantity 10, rests with 2 remaining. -/
def scenarioThree : Ordebook :=
  { bids_ := [(100, [{ Order.new OrderType.GoodTillCancel 1 Side.Buy 100 10 with
      remainingQuantity_ := 2 }])]
    asks_ := []
    orders_ := [(1, { order_ := { Order.new OrderType.GoodTillCancel 1 Side.Buy 100 10 with
      remainingQuantity_ := 2 } })] }

/-- The book of scenario 3 after order 1 is cancelled and added again at 101. -/
def scenarioFive : Ordebook :=
  { bids_ := [(101, [Order.new OrderType.GoodTillCancel 1 Side.Buy 101 2])]
    asks_ := []
    orders_ := [(1, { order_ := Order.new OrderType.GoodTillCancel 1 Side.Buy 101 2 })] }

/-- Scenario 4: a book with the single resting ask id 9, 5 @ 100. -/
def scenarioFour : Ordebook :=
  { bids_ := []
    asks_ := [(100, [Order.new OrderType.GoodTillCancel 9 Side.Sell 100 5])]
    orders_ := [(9, { order_ := Order.new OrderType.GoodTillCancel 9 Side.Sell 100 5 })] }

/-- A book with two bids at 100, a bid at 99 and an ask at 101. -/
def quotedBook : Ordebook :=
  { bids_ := [(100, [Order.new OrderType.GoodTillCancel 1 Side.Buy 100 10,
        Order.new OrderType.GoodTillCancel 2 Side.Buy 100 4]),
      (99, [Order.new OrderType.GoodTillCancel 3 Side.Buy 99 7])]
    asks_ := [(101, [Order.new OrderType.GoodTillCancel 4 Side.Sell 101 5])]
    orders_ := [(1, { order_ := Order.new OrderType.GoodTillCancel 1 Side.Buy 100 10 }),
      (2, { order_ := Order.new OrderType.GoodTillCancel 2 Side.Buy 100 4 }),
      (3, { order_ := Order.new OrderType.GoodTillCancel 3 Side.Buy 99 7 }),
      (4, { order_ := Order.new OrderType.GoodTillCancel 4 Side.Sell 101 5 })] }

/-- Two buys of 2 ^ 31 each at 100. -/
def heavyBook : Ordebook :=
  { bids_ := [(100, [Order.new OrderType.GoodTillCancel 1 Side.Buy 100 2147483648,
        Order.new OrderType.GoodTillCancel 2 Side.Buy 100 2147483648])]
    asks_ := []
    orders_ := [(1, { order_ := Order.new OrderType.GoodTillCancel 1 Side.Buy 100 2147483648 }),
      (2, { order_ := Order.new OrderType.GoodTillCancel 2 Side.Buy 100 2147483648 })] }

/-- Sum of the remaining quantities of the orders of a level, as a natural number. -/
def levelQuantity (orders : OrderPointers) : Nat :=
  (orders.map (fun o => o.remainingQuantity_)).sum

set_option linter.unusedSectionVars false

section ContainerLemmas
variable {κ ν : Type} [DecidableEq κ]

@[simp] theorem mapFind?_nil (k : κ) : mapFind? ([] : List (κ × ν)) k = none := rfl

theorem mapFind?_cons (k1 : κ) (v1 : ν) (rest : List (κ × ν)) (k : κ) :
    mapFind? ((k1, v1) :: rest) k = if k1 = k then some v1 else mapFind? rest k := rfl

@[simp] theorem mapFind?_cons_self (k : κ) (v : ν) (rest : List (κ × ν)) :
    mapFind? ((k, v) :: rest) k = some v := by
  simp [mapFind?_cons]

theorem mapFind?_cons_ne {k1 k : κ} (h : k1 ≠ k) (v : ν) (rest : List (κ × ν)) :
    mapFind? ((k1, v) :: rest) k = mapFind? rest k := by
  simp [mapFind?_cons, h]

theorem mapFind?_eq_none {m : List (κ × ν)} {k : κ} :
    mapFind? m k = none ↔ ∀ e ∈ m, e.1 ≠ k := by
  induction m with
  | nil => simp
  | cons e rest ih =>
    obtain ⟨k1, v1⟩ := e
    by_cases h : k1 = k
    · simp [mapFind?_cons, h]
    · simp [mapFind?_cons, h, ih]

theorem mem_of_mapFind? {m : List (κ × ν)} {k : κ} {v : ν} (h : mapFind? m k = some v) :
    (k, v) ∈ m := by
  induction m with
  | nil => simp at h
  | cons e rest ih =>
    obtain ⟨k1, v1⟩ := e
    by_cases hk : k1 = k
    · simp [mapFind?_cons, hk] at h
      simp [hk, h]
    · simp [mapFind?_cons, hk] at h
      exact List.mem_cons_of_mem _ (ih h)

theorem mapContains_eq_false {m : List (κ × ν)} {k : κ} :
    mapContains m k = false ↔ mapFind? m k = none := by
  simp [mapContains]

theorem mapContains_eq_true {m : List (κ × ν)} {k : κ} :
    mapContains m k = true ↔ ∃ v, mapFind? m k = some v := by
  simp [mapContains, Option.isSome_iff_exists]

theorem mapErase_cons (k1 : κ) (v1 : ν) (rest : List (κ × ν)) (k : κ) :
    mapErase ((k1, v1) :: rest) k
      = if k1 = k then mapErase rest k else (k1, v1) :: mapErase rest k := by
  by_cases h : k1 = k <;> simp [mapErase, List.filter_cons, h]

theorem mapSet_cons (k1 : κ) (v1 : ν) (rest : List (κ × ν)) (k : κ) (v : ν) :
    mapSet ((k1, v1) :: rest) k v
      = (if k1 = k then (k1, v) else (k1, v1)) :: mapSet rest k v := by
  simp [mapSet]

@[simp] theorem mapErase_nil (k : κ) : mapErase ([] : List (κ × ν)) k = [] := rfl

@[simp] theorem mapSet_nil (k : κ) (v : ν) : mapSet ([] : List (κ × ν)) k v = [] := rfl

theorem mem_mapErase {m : List (κ × ν)} {k : κ} {e : κ × ν} :
    e ∈ mapErase m k ↔ e ∈ m ∧ e.1 ≠ k := by
  simp [mapErase]

theorem mapFind?_mapErase_self (m : List (κ × ν)) (k : κ) :
    mapFind? (mapErase m k) k = none := by
  rw [mapFind?_eq_none]
  intro e he
  exact (mem_mapErase.1 he).2

theorem mapFind?_mapErase_ne (m : List (κ × ν)) {k k1 : κ} (h : k1 ≠ k) :
    mapFind? (mapErase m k) k1 = mapFind? m k1 := by
  induction m with
  | nil => rfl
  | cons e rest ih =>
    obtain ⟨k2, v2⟩ := e
    by_cases h2 : k2 = k
    · have : k2 ≠ k1 := by rw [h2]; exact fun h3 => h h3.symm
      rw [mapErase_cons, if_pos h2, ih, mapFind?_cons_ne this]
    · rw [mapErase_cons, if_neg h2, mapFind?_cons, mapFind?_cons, ih]

theorem mapErase_eq_self {m : List (κ × ν)} {k : κ} (h : mapFind? m k = none) :
    mapErase m k = m := by
  rw [mapFind?_eq_none] at h
  simp only [mapErase, List.filter_eq_self]
  intro e he
  simpa using h e he

theorem mapFind?_mapSet_self (m : List (κ × ν)) (k : κ) (v : ν) :
    mapFind? (mapSet m k v) k = (mapFind? m k).map (fun _ => v) := by
  induction m with
  | nil => rfl
  | cons e rest ih =>
    obtain ⟨k2, v2⟩ := e
    rw [mapSet_cons]
    by_cases h2 : k2 = k
    · rw [if_pos h2, mapFind?_cons, mapFind?_cons, if_pos h2, if_pos h2]; rfl
    · rw [if_neg h2, mapFind?_cons, mapFind?_cons, if_neg h2, if_neg h2, ih]

theorem mapFind?_mapSet_ne (m : List (κ × ν)) {k k1 : κ} (h : k1 ≠ k) (v : ν) :
    mapFind? (mapSet m k v) k1 = mapFind? m k1 := by
  induction m with
  | nil => rfl
  | cons e rest ih =>
    obtain ⟨k2, v2⟩ := e
    rw [mapSet_cons]
    by_cases h2 : k2 = k
    · have : k2 ≠ k1 := by rw [h2]; exact fun h3 => h h3.symm
      rw [if_pos h2, mapFind?_cons_ne this, mapFind?_cons_ne this, ih]
    · rw [if_neg h2, mapFind?_cons, mapFind?_cons, ih]

theorem mapSet_eq_self {m : List (κ × ν)} {k : κ} (h : mapFind? m k = none) (v : ν) :
    mapSet m k v = m := by
  induction m with
  | nil => rfl
  | cons e rest ih =>
    obtain ⟨k2, v2⟩ := e
    by_cases h2 : k2 = k
    · simp [mapFind?_cons, h2] at h
    · rw [mapFind?_cons, if_neg h2] at h
      rw [mapSet_cons, if_neg h2, ih h]

theorem map_fst_mapSet (m : List (κ × ν)) (k : κ) (v : ν) :
    (mapSet m k v).map Prod.fst = m.map Prod.fst := by
  induction m with
  | nil => rfl
  | cons e rest ih =>
    obtain ⟨k2, v2⟩ := e
    rw [mapSet_cons, List.map_cons, List.map_cons, ih]
    by_cases h : k2 = k <;> simp [h]

theorem mapSet_cons_self (k : κ) (v w : ν) (rest : List (κ × ν))
    (h : mapFind? rest k = none) : mapSet ((k, v) :: rest) k w = (k, w) :: rest := by
  rw [mapSet_cons, if_pos rfl, mapSet_eq_self h]

theorem mapErase_cons_self (k : κ) (v : ν) (rest : List (κ × ν))
    (h : mapFind? rest k = none) : mapErase ((k, v) :: rest) k = rest := by
  rw [mapErase_cons, if_pos rfl, mapErase_eq_self h]

theorem mapSet_mapSet (m : List (κ × ν)) (k : κ) (v w : ν) :
    mapSet (mapSet m k v) k w = mapSet m k w := by
  induction m with
  | nil => rfl
  | cons e rest ih =>
    obtain ⟨k2, v2⟩ := e
    rw [mapSet_cons, mapSet_cons, mapSet_cons, ih]
    by_cases h : k2 = k <;> simp [h]

theorem mapErase_mapSet (m : List (κ × ν)) (k : κ) (v : ν) :
    mapErase (mapSet m k v) k = mapErase m k := by
  induction m with
  | nil => rfl
  | cons e rest ih =>
    obtain ⟨k2, v2⟩ := e
    rw [mapSet_cons]
    by_cases h : k2 = k
    · rw [if_pos h, mapErase_cons, mapErase_cons, if_pos h, if_pos h, ih]
    · rw [if_neg h, mapErase_cons, mapErase_cons, if_neg h, if_neg h, ih]

theorem insertNode_cons_pos {before : κ → κ → Bool} {k k1 : κ} (h : before k k1 = true)
    (v1 : ν) (rest : List (κ × ν)) (v : ν) :
    insertNode before ((k1, v1) :: rest) k v = (k, v) :: (k1, v1) :: rest := by
  simp [insertNode, h]

theorem insertNode_cons_neg {before : κ → κ → Bool} {k k1 : κ} (h : ¬ before k k1 = true)
    (v1 : ν) (rest : List (κ × ν)) (v : ν) :
    insertNode before ((k1, v1) :: rest) k v = (k1, v1) :: insertNode before rest k v := by
  simp [insertNode, h]

theorem mem_insertNode (before : κ → κ → Bool) (m : List (κ × ν)) (k : κ) (v : ν)
    (e : κ × ν) : e ∈ insertNode before m k v ↔ e = (k, v) ∨ e ∈ m := by
  induction m with
  | nil => simp [insertNode]
  | cons e1 rest ih =>
    obtain ⟨k1, v1⟩ := e1
    by_cases h : before k k1 = true
    · simp [insertNode, h]
    · rw [insertNode_cons_neg h]
      simp only [List.mem_cons, ih]
      tauto

theorem length_insertNode (before : κ → κ → Bool) (m : List (κ × ν)) (k : κ) (v : ν) :
    (insertNode before m k v).length = m.length + 1 := by
  induction m with
  | nil => rfl
  | cons e1 rest ih =>
    obtain ⟨k1, v1⟩ := e1
    by_cases h : before k k1 = true
    · simp [insertNode, h]
    · simp [insertNode, h, ih]

theorem insertNode_perm (before : κ → κ → Bool) (m : List (κ × ν)) (k : κ) (v : ν) :
    (insertNode before m k v).Perm ((k, v) :: m) := by
  induction m with
  | nil => exact List.Perm.refl _
  | cons e1 rest ih =>
    obtain ⟨k1, v1⟩ := e1
    by_cases h : before k k1 = true
    · simp [insertNode, h]
    · rw [insertNode_cons_neg h]
      exact (List.Perm.cons _ ih).trans (List.Perm.swap _ _ _)

theorem mapFind?_insertNode_self (before : κ → κ → Bool) {m : List (κ × ν)} {k : κ}
    (h : mapFind? m k = none) (v : ν) : mapFind? (insertNode before m k v) k = some v := by
  induction m with
  | nil => simp [insertNode]
  | cons e1 rest ih =>
    obtain ⟨k1, v1⟩ := e1
    by_cases h1 : k1 = k
    · simp [mapFind?_cons, h1] at h
    · rw [mapFind?_cons, if_neg h1] at h
      by_cases h2 : before k k1 = true
      · simp [insertNode, h2]
      · rw [insertNode_cons_neg h2, mapFind?_cons, if_neg h1, ih h]

theorem mapFind?_insertNode_ne (before : κ → κ → Bool) (m : List (κ × ν)) {k k1 : κ}
    (h : k1 ≠ k) (v : ν) : mapFind? (insertNode before m k v) k1 = mapFind? m k1 := by
  induction m with
  | nil => simp [insertNode, mapFind?_cons, Ne.symm h]
  | cons e1 rest ih =>
    obtain ⟨k2, v2⟩ := e1
    by_cases h2 : before k k2 = true
    · rw [insertNode_cons_pos h2, mapFind?_cons_ne (Ne.symm h)]
    · rw [insertNode_cons_neg h2, mapFind?_cons, mapFind?_cons, ih]

theorem mapErase_insertNode (before : κ → κ → Bool) {m : List (κ × ν)} {k : κ}
    (h : mapFind? m k = none) (v : ν) : mapErase (insertNode before m k v) k = m := by
  induction m with
  | nil => simp [insertNode, mapErase_cons]
  | cons e1 rest ih =>
    obtain ⟨k1, v1⟩ := e1
    by_cases h1 : k1 = k
    · simp [mapFind?_cons, h1] at h
    · have h0 := h
      rw [mapFind?_cons, if_neg h1] at h
      by_cases h2 : before k k1 = true
      · rw [insertNode_cons_pos h2, mapErase_cons_self _ _ _ h0]
      · rw [insertNode_cons_neg h2, mapErase_cons, if_neg h1, ih h]

theorem mapSet_insertNode (before : κ → κ → Bool) {m : List (κ × ν)} {k : κ}
    (h : mapFind? m k = none) (v w : ν) :
    mapSet (insertNode before m k v) k w = insertNode before m k w := by
  induction m with
  | nil => simp [insertNode, mapSet_cons]
  | cons e1 rest ih =>
    obtain ⟨k1, v1⟩ := e1
    by_cases h1 : k1 = k
    · simp [mapFind?_cons, h1] at h
    · have h0 := h
      rw [mapFind?_cons, if_neg h1] at h
      by_cases h2 : before k k1 = true
      · rw [insertNode_cons_pos h2, insertNode_cons_pos h2, mapSet_cons_self _ _ _ _ h0]
      · rw [insertNode_cons_neg h2, insertNode_cons_neg h2, mapSet_cons, if_neg h1, ih h]

theorem SortedBy.nil (before : κ → κ → Bool) : SortedBy before ([] : List (κ × ν)) := by
  simp [SortedBy]

theorem sortedBy_cons {before : κ → κ → Bool} {k : κ} {v : ν} {rest : List (κ × ν)} :
    SortedBy before ((k, v) :: rest)
      ↔ (∀ e ∈ rest, before k e.1 = true) ∧ SortedBy before rest := by
  simp [SortedBy, List.pairwise_cons]

theorem SortedBy.mapErase {before : κ → κ → Bool} {m : List (κ × ν)}
    (h : SortedBy before m) (k : κ) : SortedBy before (mapErase m k) := by
  unfold SortedBy at h ⊢
  exact h.sublist ((List.filter_sublist m).map Prod.fst)

theorem SortedBy.mapSet {before : κ → κ → Bool} {m : List (κ × ν)}
    (h : SortedBy before m) (k : κ) (v : ν) : SortedBy before (mapSet m k v) := by
  unfold SortedBy at h ⊢
  rw [map_fst_mapSet]; exact h

theorem SortedBy.tail_find {before : κ → κ → Bool} (hb : StrictTotal before) {k : κ} {v : ν}
    {rest : List (κ × ν)} (h : SortedBy before ((k, v) :: rest)) : mapFind? rest k = none := by
  rw [mapFind?_eq_none]
  intro e he h1
  have := (sortedBy_cons.1 h).1 e he
  rw [h1, hb.irrefl] at this
  exact Bool.noConfusion this

theorem SortedBy.insertNode_sorted {before : κ → κ → Bool} (hb : StrictTotal before)
    {m : List (κ × ν)} (h : SortedBy before m) {k : κ} (hk : mapFind? m k = none) (v : ν) :
    SortedBy before (insertNode before m k v) := by
  induction m with
  | nil => simp [LimitOrderbook.insertNode, SortedBy]
  | cons e1 rest ih =>
    obtain ⟨k1, v1⟩ := e1
    have h1 : k1 ≠ k := by
      intro h2
      simp [mapFind?_cons, h2] at hk
    rw [mapFind?_cons, if_neg h1] at hk
    by_cases h2 : before k k1 = true
    · rw [insertNode_cons_pos h2, sortedBy_cons]
      refine ⟨?_, h⟩
      intro e he
      rcases List.mem_cons.1 he with h3 | h3
      · rw [h3]; exact h2
      · exact hb.trans _ _ _ h2 ((sortedBy_cons.1 h).1 e h3)
    · rw [insertNode_cons_neg h2, sortedBy_cons]
      refine ⟨?_, ih (sortedBy_cons.1 h).2 hk⟩
      intro e he
      rcases (mem_insertNode _ _ _ _ _).1 he with h3 | h3
      · rw [h3]
        exact hb.total _ _ (Ne.symm h1) (by simpa using h2)
      · exact (sortedBy_cons.1 h).1 e h3

end ContainerLemmas

theorem strictTotal_greater : StrictTotal greater where
  irrefl := by intro a; simp [greater]
  trans := by
    intro a b c h1 h2
    simp only [greater, decide_eq_true_eq] at *
    exact gt_trans h1 h2
  total := by
    intro a b h1 h2
    simp only [greater, decide_eq_true_eq, decide_eq_false_iff_not] at *
    exact lt_of_le_of_ne (not_lt.1 h2) h1

theorem strictTotal_less : StrictTotal less where
  irrefl := by intro a; simp [less]
  trans := by
    intro a b c h1 h2
    simp only [less, decide_eq_true_eq] at *
    exact lt_trans h1 h2
  total := by
    intro a b h1 h2
    simp only [less, decide_eq_true_eq, decide_eq_false_iff_not] at *
    exact lt_of_le_of_ne (not_lt.1 h2) (Ne.symm h1)

theorem strictTotal_idBefore : StrictTotal idBefore where
  irrefl := by intro a; simp [idBefore]
  trans := by
    intro a b c h1 h2
    simp only [idBefore, decide_eq_true_eq] at *
    exact lt_trans h1 h2
  total := by
    intro a b h1 h2
    simp only [idBefore, decide_eq_true_eq, decide_eq_false_iff_not] at *
    exact lt_of_le_of_ne (not_lt.1 h2) (Ne.symm h1)

theorem sideOrders_cons (p : Price) (os : OrderPointers) (rest : List (Price × OrderPointers)) :
    sideOrders ((p, os) :: rest) = os ++ sideOrders rest := by
  simp [sideOrders]

theorem sideIds_cons (p : Price) (os : OrderPointers) (rest : List (Price × OrderPointers)) :
    sideIds ((p, os) :: rest) = os.map (fun o => o.orderId_) ++ sideIds rest := by
  simp [sideIds, sideOrders_cons]

theorem mem_sideOrders {side : List (Price × OrderPointers)} {o : Order} :
    o ∈ sideOrders side ↔ ∃ l ∈ side, o ∈ l.2 := by
  simp [sideOrders, List.mem_flatMap]

theorem mem_sideIds {side : List (Price × OrderPointers)} {i : OrderID} :
    i ∈ sideIds side ↔ ∃ l ∈ side, ∃ o ∈ l.2, o.orderId_ = i := by
  simp only [sideIds, List.mem_map, mem_sideOrders]
  constructor
  · rintro ⟨o, ⟨l, hl, ho⟩, h⟩
    exact ⟨l, hl, o, ho, h⟩
  · rintro ⟨l, hl, o, ho, h⟩
    exact ⟨o, ⟨l, hl, ho⟩, h⟩

theorem sideCount_cons (p : Price) (os : OrderPointers) (rest : List (Price × OrderPointers)) :
    sideCount ((p, os) :: rest) = os.length + sideCount rest := by
  simp [sideCount]

theorem sideCount_eq_length (side : List (Price × OrderPointers)) :
    sideCount side = (sideOrders side).length := by
  induction side with
  | nil => rfl
  | cons l rest ih =>
    obtain ⟨p, os⟩ := l
    rw [sideCount_cons, sideOrders_cons, List.length_append, ih]

/-! ### `levelAt` -/

theorem levelAt_cons_self (p : Price) (os : OrderPointers) (rest : List (Price × OrderPointers)) :
    levelAt ((p, os) :: rest) p = os := by
  simp [levelAt]

theorem levelAt_cons_ne {p1 p : Price} (h : p1 ≠ p) (os : OrderPointers)
    (rest : List (Price × OrderPointers)) : levelAt ((p1, os) :: rest) p = levelAt rest p := by
  simp [levelAt, mapFind?_cons_ne h]

theorem levelAt_of_find {side : List (Price × OrderPointers)} {p : Price} {os : OrderPointers}
    (h : mapFind? side p = some os) : levelAt side p = os := by
  simp [levelAt, h]

theorem levelAt_of_none {side : List (Price × OrderPointers)} {p : Price}
    (h : mapFind? side p = none) : levelAt side p = [] := by
  simp [levelAt, h]

theorem find_of_mem_levelAt {side : List (Price × OrderPointers)} {p : Price} {o : Order}
    (h : o ∈ levelAt side p) : ∃ os, mapFind? side p = some os ∧ o ∈ os := by
  unfold levelAt at h
  cases hf : mapFind? side p with
  | none => simp [hf] at h
  | some os => exact ⟨os, rfl, by simpa [hf] using h⟩

/-! ### `dropOrder` -/

theorem mem_dropFromLevel {i : OrderID} {os : OrderPointers} {o : Order} :
    o ∈ dropFromLevel i os ↔ o ∈ os ∧ o.orderId_ ≠ i := by
  simp [dropFromLevel]

theorem dropFromLevel_cons_self (o : Order) (rest : OrderPointers) :
    dropFromLevel o.orderId_ (o :: rest) = dropFromLevel o.orderId_ rest := by
  simp [dropFromLevel]

theorem dropFromLevel_cons_ne {i : OrderID} {o : Order} (h : o.orderId_ ≠ i)
    (rest : OrderPointers) : dropFromLevel i (o :: rest) = o :: dropFromLevel i rest := by
  simp [dropFromLevel, h]

theorem dropFromLevel_eq_self {i : OrderID} {os : OrderPointers}
    (h : ∀ o ∈ os, o.orderId_ ≠ i) : dropFromLevel i os = os := by
  unfold dropFromLevel
  rw [List.filter_eq_self]
  intro o ho
  simpa using h o ho

theorem dropFromLevel_sublist (i : OrderID) (os : OrderPointers) :
    (dropFromLevel i os).Sublist os :=
  List.filter_sublist os

theorem dropOrder_cons (i : OrderID) (p : Price) (os : OrderPointers)
    (rest : List (Price × OrderPointers)) :
    dropOrder i ((p, os) :: rest)
      = if dropFromLevel i os = [] then dropOrder i rest
        else (p, dropFromLevel i os) :: dropOrder i rest := by
  unfold dropOrder
  rw [List.map_cons, List.filter_cons]
  by_cases h : dropFromLevel i os = []
  · simp [h]
  · simp [h]

theorem mem_dropOrder {i : OrderID} {side : List (Price × OrderPointers)}
    {l : Price × OrderPointers} :
    l ∈ dropOrder i side ↔ l.2 ≠ [] ∧ ∃ l0 ∈ side, l = (l0.1, dropFromLevel i l0.2) := by
  unfold dropOrder
  rw [List.mem_filter, List.mem_map]
  constructor
  · rintro ⟨⟨l0, h0, h1⟩, h2⟩
    exact ⟨by simpa using h2, l0, h0, h1.symm⟩
  · rintro ⟨h2, l0, h0, h1⟩
    exact ⟨⟨l0, h0, h1.symm⟩, by simpa using h2⟩

theorem sideOrders_dropOrder (i : OrderID) (side : List (Price × OrderPointers)) :
    sideOrders (dropOrder i side) = dropFromLevel i (sideOrders side) := by
  induction side with
  | nil => rfl
  | cons l rest ih =>
    obtain ⟨p, os⟩ := l
    rw [dropOrder_cons, sideOrders_cons]
    have h2 : dropFromLevel i (os ++ sideOrders rest)
        = dropFromLevel i os ++ dropFromLevel i (sideOrders rest) := by
      simp [dropFromLevel]
    by_cases h : dropFromLevel i os = []
    · rw [if_pos h, ih, h2, h, List.nil_append]
    · rw [if_neg h, sideOrders_cons, ih, h2]

theorem map_fst_dropOrder_sublist (i : OrderID) (side : List (Price × OrderPointers)) :
    ((dropOrder i side).map Prod.fst).Sublist (side.map Prod.fst) := by
  induction side with
  | nil => exact List.Sublist.refl _
  | cons l rest ih =>
    obtain ⟨p, os⟩ := l
    rw [dropOrder_cons]
    by_cases h : dropFromLevel i os = []
    · rw [if_pos h]; exact List.Sublist.cons _ ih
    · rw [if_neg h]; exact List.Sublist.cons₂ _ ih

theorem SortedBy.dropOrder_sorted {before : Price → Price → Bool} {side : List (Price × OrderPointers)}
    (h : SortedBy before side) (i : OrderID) : SortedBy before (dropOrder i side) := by
  unfold SortedBy at h ⊢
  exact h.sublist (map_fst_dropOrder_sublist i side)

theorem mapFind?_dropOrder_none {i : OrderID} {side : List (Price × OrderPointers)} {p : Price}
    (h : mapFind? side p = none) : mapFind? (dropOrder i side) p = none := by
  rw [mapFind?_eq_none] at h ⊢
  intro l hl
  obtain ⟨_, l0, h0, h1⟩ := mem_dropOrder.1 hl
  rw [h1]
  exact h l0 h0

theorem levelAt_dropOrder {before : Price → Price → Bool} (hb : StrictTotal before)
    {side : List (Price × OrderPointers)} (hs : SortedBy before side) (i : OrderID) (p : Price) :
    levelAt (dropOrder i side) p = dropFromLevel i (levelAt side p) := by
  induction side with
  | nil => rfl
  | cons l rest ih =>
    obtain ⟨p1, os⟩ := l
    have hrest := (sortedBy_cons.1 hs).2
    rw [dropOrder_cons]
    by_cases hp : p1 = p
    · subst hp
      rw [levelAt_cons_self]
      by_cases h : dropFromLevel i os = []
      · rw [if_pos h, h, levelAt_of_none (mapFind?_dropOrder_none (hs.tail_find hb))]
      · rw [if_neg h, levelAt_cons_self]
    · rw [levelAt_cons_ne hp]
      by_cases h : dropFromLevel i os = []
      · rw [if_pos h, ih hrest]
      · rw [if_neg h, levelAt_cons_ne hp, ih hrest]

theorem dropOrder_eq_self {i : OrderID} {side : List (Price × OrderPointers)}
    (h : i ∉ sideIds side) (hne : ∀ l ∈ side, l.2 ≠ []) : dropOrder i side = side := by
  induction side with
  | nil => rfl
  | cons l rest ih =>
    obtain ⟨p, os⟩ := l
    rw [sideIds_cons, List.mem_append, not_or] at h
    have h1 : dropFromLevel i os = os := by
      apply dropFromLevel_eq_self
      intro o ho h2
      exact h.1 (List.mem_map.2 ⟨o, ho, h2⟩)
    have h2 : os ≠ [] := hne (p, os) (List.mem_cons_self _ _)
    rw [dropOrder_cons, h1, if_neg h2, ih h.2 (fun l hl => hne l (List.mem_cons_of_mem _ hl))]

theorem dropOrder_front {p : Price} {o : Order} {rest : OrderPointers}
    {srest : List (Price × OrderPointers)} (h : (sideIds ((p, o :: rest) :: srest)).Nodup)
    (hne : ∀ l ∈ srest, l.2 ≠ []) :
    dropOrder o.orderId_ ((p, o :: rest) :: srest)
      = if rest = [] then srest else (p, rest) :: srest := by
  rw [sideIds_cons, List.map_cons, List.cons_append, List.nodup_cons, List.mem_append,
    not_or] at h
  have h1 : dropFromLevel o.orderId_ rest = rest := by
    apply dropFromLevel_eq_self
    intro o1 ho1 h2
    exact h.1.1 (List.mem_map.2 ⟨o1, ho1, h2⟩)
  rw [dropOrder_cons, dropFromLevel_cons_self, h1, dropOrder_eq_self h.1.2 hne]

theorem sideCount_dropOrder_le (i : OrderID) (side : List (Price × OrderPointers)) :
    sideCount (dropOrder i side) ≤ sideCount side := by
  rw [sideCount_eq_length, sideCount_eq_length, sideOrders_dropOrder]
  exact (dropFromLevel_sublist i _).length_le

theorem sideCount_dropOrder_lt {i : OrderID} {side : List (Price × OrderPointers)}
    (h : i ∈ sideIds side) : sideCount (dropOrder i side) < sideCount side := by
  rw [sideCount_eq_length, sideCount_eq_length, sideOrders_dropOrder]
  obtain ⟨o, ho, h1⟩ := List.mem_map.1 h
  unfold dropFromLevel
  apply List.length_filter_lt_length_iff_exists.2
  exact ⟨o, ho, by simp [h1]⟩

theorem WF.empty_wf : WF Ordebook.empty where
  bidsSorted := SortedBy.nil _
  asksSorted := SortedBy.nil _
  ordersSorted := SortedBy.nil _
  bidsPlaced := by intro l hl; simp [Ordebook.empty] at hl
  asksPlaced := by intro l hl; simp [Ordebook.empty] at hl
  indexed := by intro k e h; simp [Ordebook.empty] at h
  nodup := by simp [Ordebook.empty, sideIds, sideOrders]

theorem WF.placed {b : Ordebook} (h : WF b) (s : Side) : Placed s (b.side s) b.orders_ := by
  cases s
  · exact h.bidsPlaced
  · exact h.asksPlaced

theorem WF.side_sorted {b : Ordebook} (h : WF b) (s : Side) :
    ∃ before, StrictTotal before ∧ SortedBy before (b.side s) := by
  cases s
  · exact ⟨greater, strictTotal_greater, h.bidsSorted⟩
  · exact ⟨less, strictTotal_less, h.asksSorted⟩

theorem Placed.find_of_id {s : Side} {side : List (Price × OrderPointers)}
    {orders : List (OrderID × OrderEntry)} (h : Placed s side orders) {i : OrderID}
    (hi : i ∈ sideIds side) : ∃ o, mapFind? orders i = some { order_ := o } ∧ o.side_ = s := by
  obtain ⟨l, hl, o, ho, h1⟩ := mem_sideIds.1 hi
  have := (h l hl).2 o ho
  exact ⟨o, by rw [← h1]; exact this.2.2, this.1⟩

/-- In a consistent book the index knows exactly the ids of the levels. -/
theorem WF.mem_ids_iff {b : Ordebook} (h : WF b) (i : OrderID) :
    i ∈ sideIds b.bids_ ++ sideIds b.asks_ ↔ mapContains b.orders_ i = true := by
  rw [mapContains_eq_true, List.mem_append]
  constructor
  · rintro (h1 | h1)
    · obtain ⟨o, ho, _⟩ := h.bidsPlaced.find_of_id h1
      exact ⟨_, ho⟩
    · obtain ⟨o, ho, _⟩ := h.asksPlaced.find_of_id h1
      exact ⟨_, ho⟩
  · rintro ⟨e, he⟩
    obtain ⟨h1, h2⟩ := h.indexed i e he
    obtain ⟨os, hos, hmem⟩ := find_of_mem_levelAt h2
    have h3 := mem_of_mapFind? hos
    cases hs : e.order_.side_ with
    | Buy =>
      rw [hs] at h3
      exact Or.inl (mem_sideIds.2 ⟨_, h3, _, hmem, h1⟩)
    | Sell =>
      rw [hs] at h3
      exact Or.inr (mem_sideIds.2 ⟨_, h3, _, hmem, h1⟩)

theorem Ordebook.side_without (b : Ordebook) (i : OrderID) (s : Side) :
    (b.without i).side s = dropOrder i (b.side s) := by
  cases s <;> rfl

theorem Placed.without_placed {s : Side} {side : List (Price × OrderPointers)}
    {orders : List (OrderID × OrderEntry)} (h : Placed s side orders) (i : OrderID) :
    Placed s (dropOrder i side) (mapErase orders i) := by
  intro l hl
  obtain ⟨h1, l0, h0, h2⟩ := mem_dropOrder.1 hl
  refine ⟨h1, ?_⟩
  intro o ho
  rw [h2] at ho
  obtain ⟨ho1, ho2⟩ := mem_dropFromLevel.1 ho
  have := (h l0 h0).2 o ho1
  refine ⟨this.1, by rw [h2]; exact this.2.1, ?_⟩
  rw [mapFind?_mapErase_ne _ ho2]
  exact this.2.2

theorem WF.without_wf {b : Ordebook} (h : WF b) (i : OrderID) : WF (b.without i) where
  bidsSorted := h.bidsSorted.dropOrder_sorted i
  asksSorted := h.asksSorted.dropOrder_sorted i
  ordersSorted := h.ordersSorted.mapErase i
  bidsPlaced := h.bidsPlaced.without_placed i
  asksPlaced := h.asksPlaced.without_placed i
  indexed := by
    intro k e he
    have hk : k ≠ i := by
      intro h1
      rw [h1] at he
      simp [Ordebook.without, mapFind?_mapErase_self] at he
    have he1 : mapFind? b.orders_ k = some e := by
      simpa [Ordebook.without, mapFind?_mapErase_ne _ hk] using he
    obtain ⟨h1, h2⟩ := h.indexed k e he1
    refine ⟨h1, ?_⟩
    obtain ⟨before, hb, hs⟩ := h.side_sorted e.order_.side_
    rw [Ordebook.side_without, levelAt_dropOrder hb hs, mem_dropFromLevel]
    exact ⟨h2, by rw [h1]; exact hk⟩
  nodup := by
    have h1 : (sideIds (dropOrder i b.bids_)).Sublist (sideIds b.bids_) := by
      unfold sideIds
      rw [sideOrders_dropOrder]
      exact (dropFromLevel_sublist i _).map _
    have h2 : (sideIds (dropOrder i b.asks_)).Sublist (sideIds b.asks_) := by
      unfold sideIds
      rw [sideOrders_dropOrder]
      exact (dropFromLevel_sublist i _).map _
    exact h.nodup.sublist (h1.append h2)

theorem eraseNode_eq {os : OrderPointers} {i : OrderID}
    (hn : (os.map (fun o => o.orderId_)).Nodup) (hi : ∃ o ∈ os, o.orderId_ = i) :
    eraseNode os i = some (dropFromLevel i os) := by
  induction os with
  | nil => obtain ⟨o, ho, _⟩ := hi; simp at ho
  | cons x rest ih =>
    rw [List.map_cons, List.nodup_cons] at hn
    by_cases hx : x.orderId_ = i
    · subst hx
      rw [dropFromLevel_cons_self, dropFromLevel_eq_self]
      · simp [eraseNode]
      · intro o1 ho1 h1
        exact hn.1 (List.mem_map.2 ⟨o1, ho1, h1⟩)
    · obtain ⟨o, ho, h1⟩ := hi
      have ho1 : o ∈ rest := by
        rcases List.mem_cons.1 ho with h2 | h2
        · rw [h2] at h1; exact absurd h1 hx
        · exact h2
      rw [dropFromLevel_cons_ne hx]
      simp [eraseNode, hx, ih hn.2 ⟨o, ho1, h1⟩]

theorem level_ids_nodup {side : List (Price × OrderPointers)} (hn : (sideIds side).Nodup)
    {l : Price × OrderPointers} (hl : l ∈ side) : (l.2.map (fun o => o.orderId_)).Nodup := by
  induction side with
  | nil => simp at hl
  | cons l1 rest ih =>
    obtain ⟨p1, os1⟩ := l1
    rw [sideIds_cons, List.nodup_append] at hn
    rcases List.mem_cons.1 hl with h | h
    · rw [h]; exact hn.1
    · exact ih hn.2.1 h

theorem dropOrder_eq_of_find {before : Price → Price → Bool} (hb : StrictTotal before)
    {side : List (Price × OrderPointers)} (hs : SortedBy before side)
    (hn : (sideIds side).Nodup) (hne : ∀ l ∈ side, l.2 ≠ []) {p : Price} {os : OrderPointers}
    (hf : mapFind? side p = some os) {i : OrderID} (hi : ∃ o ∈ os, o.orderId_ = i) :
    dropOrder i side
      = if (dropFromLevel i os).isEmpty then mapErase side p
        else mapSet side p (dropFromLevel i os) := by
  induction side with
  | nil => simp at hf
  | cons l1 rest ih =>
    obtain ⟨p1, os1⟩ := l1
    have hne1 : ∀ l ∈ rest, l.2 ≠ [] := fun l hl => hne l (List.mem_cons_of_mem _ hl)
    rw [sideIds_cons, List.nodup_append] at hn
    obtain ⟨o, ho, hoi⟩ := hi
    by_cases hp : p1 = p
    · subst hp
      rw [mapFind?_cons_self] at hf
      cases hf
      have hnone := hs.tail_find hb
      have h1 : i ∉ sideIds rest := by
        intro h2
        exact hn.2.2 (List.mem_map.2 ⟨o, ho, hoi⟩) h2
      rw [dropOrder_cons, dropOrder_eq_self h1 hne1, mapErase_cons_self _ _ _ hnone,
        mapSet_cons_self _ _ _ _ hnone]
      by_cases h2 : dropFromLevel i os = []
      · simp [h2]
      · simp [h2]
    · rw [mapFind?_cons_ne hp] at hf
      have h1 : dropFromLevel i os1 = os1 := by
        apply dropFromLevel_eq_self
        intro o1 ho1 h2
        refine hn.2.2 (List.mem_map.2 ⟨o1, ho1, h2⟩) ?_
        exact mem_sideIds.2 ⟨_, mem_of_mapFind? hf, o, ho, hoi⟩
      have h2 : os1 ≠ [] := hne (p1, os1) (List.mem_cons_self _ _)
      rw [dropOrder_cons, h1, if_neg h2, ih (sortedBy_cons.1 hs).2 hn.2.1 hne1 hf,
        mapErase_cons, if_neg hp, mapSet_cons, if_neg hp]
      split <;> rfl

theorem Placed.nonempty {s : Side} {side : List (Price × OrderPointers)}
    {orders : List (OrderID × OrderEntry)} (h : Placed s side orders) :
    ∀ l ∈ side, l.2 ≠ [] :=
  fun l hl => (h l hl).1

theorem WF.bids_ids_nodup {b : Ordebook} (h : WF b) : (sideIds b.bids_).Nodup :=
  (List.nodup_append.1 h.nodup).1

theorem WF.asks_ids_nodup {b : Ordebook} (h : WF b) : (sideIds b.asks_).Nodup :=
  (List.nodup_append.1 h.nodup).2.1

theorem WF.ids_disjoint {b : Ordebook} (h : WF b) {i : OrderID} (h1 : i ∈ sideIds b.bids_)
    (h2 : i ∈ sideIds b.asks_) : False :=
  (List.nodup_append.1 h.nodup).2.2 h1 h2

/-- On a consistent book, cancelling a known id returns, and the result is the
book without that order. -/
theorem CancelOrder_eq_without {b : Ordebook} (h : WF b) {i : OrderID} {e : OrderEntry}
    (hf : mapFind? b.orders_ i = some e) : b.CancelOrder i = .ok (b.without i) := by
  obtain ⟨h1, h2⟩ := h.indexed i e hf
  obtain ⟨os, hos, hmem⟩ := find_of_mem_levelAt h2
  have herase : eraseNode os i = some (dropFromLevel i os) := by
    apply eraseNode_eq _ ⟨_, hmem, h1⟩
    cases hs : e.order_.side_ with
    | Buy =>
      rw [hs] at hos
      exact level_ids_nodup h.bids_ids_nodup (mem_of_mapFind? hos)
    | Sell =>
      rw [hs] at hos
      exact level_ids_nodup h.asks_ids_nodup (mem_of_mapFind? hos)
  unfold Ordebook.CancelOrder
  simp only [hf]
  cases hs : e.order_.side_ with
  | Buy =>
    rw [hs] at hos
    have hside : b.side Side.Buy = b.bids_ := rfl
    rw [hside] at hos
    have hin : i ∈ sideIds b.bids_ := mem_sideIds.2 ⟨_, mem_of_mapFind? hos, _, hmem, h1⟩
    have hother : dropOrder i b.asks_ = b.asks_ :=
      dropOrder_eq_self (fun h3 => h.ids_disjoint hin h3) h.asksPlaced.nonempty
    have hself := dropOrder_eq_of_find strictTotal_greater h.bidsSorted h.bids_ids_nodup
      h.bidsPlaced.nonempty hos ⟨_, hmem, h1⟩
    simp only [hos, herase, Ordebook.without, hother, hself]
    simp
  | Sell =>
    rw [hs] at hos
    have hside : b.side Side.Sell = b.asks_ := rfl
    rw [hside] at hos
    have hin : i ∈ sideIds b.asks_ := mem_sideIds.2 ⟨_, mem_of_mapFind? hos, _, hmem, h1⟩
    have hother : dropOrder i b.bids_ = b.bids_ :=
      dropOrder_eq_self (fun h3 => h.ids_disjoint h3 hin) h.bidsPlaced.nonempty
    have hself := dropOrder_eq_of_find strictTotal_less h.asksSorted h.asks_ids_nodup
      h.asksPlaced.nonempty hos ⟨_, hmem, h1⟩
    simp only [hos, herase, Ordebook.without, hother, hself]
    simp

theorem CancelOrder_of_unknown {b : Ordebook} {i : OrderID} (hf : mapFind? b.orders_ i = none) :
    b.CancelOrder i = .ok b := by
  unfold Ordebook.CancelOrder
  simp only [hf]

/-- On a consistent book `CancelOrder` returns a consistent book. -/
theorem WF.cancelOrder_wf {b : Ordebook} (h : WF b) (i : OrderID) :
    ∃ b1, b.CancelOrder i = .ok b1 ∧ WF b1 ∧ (b1 = b ∨ b1 = b.without i) := by
  cases hf : mapFind? b.orders_ i with
  | none => exact ⟨b, CancelOrder_of_unknown hf, h, Or.inl rfl⟩
  | some e => exact ⟨_, CancelOrder_eq_without h hf, h.without_wf i, Or.inr rfl⟩

theorem Order.Fill_min_left (bid0 ask0 : Order) :
    bid0.Fill (min bid0.remainingQuantity_ ask0.remainingQuantity_)
      = .ok { bid0 with remainingQuantity_ :=
          bid0.remainingQuantity_ - min bid0.remainingQuantity_ ask0.remainingQuantity_ } := by
  unfold Order.Fill
  rw [if_neg (not_lt.2 (Nat.min_le_left _ _))]

theorem Order.Fill_min_right (bid0 ask0 : Order) :
    ask0.Fill (min bid0.remainingQuantity_ ask0.remainingQuantity_)
      = .ok { ask0 with remainingQuantity_ :=
          ask0.remainingQuantity_ - min bid0.remainingQuantity_ ask0.remainingQuantity_ } := by
  unfold Order.Fill
  rw [if_neg (not_lt.2 (Nat.min_le_right _ _))]

theorem WF.find_front_bid {b : Ordebook} (h : WF b) {bp : Price} {bid0 : Order}
    {bt : OrderPointers} {brest : List (Price × OrderPointers)}
    (hb : b.bids_ = (bp, bid0 :: bt) :: brest) :
    mapFind? b.orders_ bid0.orderId_ = some { order_ := bid0 } :=
  ((h.bidsPlaced (bp, bid0 :: bt) (by rw [hb]; exact List.mem_cons_self _ _)).2 bid0
    (List.mem_cons_self _ _)).2.2

theorem WF.find_front_ask {b : Ordebook} (h : WF b) {ap : Price} {ask0 : Order}
    {at_ : OrderPointers} {arest : List (Price × OrderPointers)}
    (ha : b.asks_ = (ap, ask0 :: at_) :: arest) :
    mapFind? b.orders_ ask0.orderId_ = some { order_ := ask0 } :=
  ((h.asksPlaced (ap, ask0 :: at_) (by rw [ha]; exact List.mem_cons_self _ _)).2 ask0
    (List.mem_cons_self _ _)).2.2

theorem front_mem_sideIds {side : List (Price × OrderPointers)} {p : Price} {o : Order}
    {rest : OrderPointers} {srest : List (Price × OrderPointers)}
    (h : side = (p, o :: rest) :: srest) : o.orderId_ ∈ sideIds side := by
  rw [h, sideIds_cons]
  simp

theorem mem_sideIds_of_dropOrder {i j : OrderID} {side : List (Price × OrderPointers)}
    (h : i ∈ sideIds (dropOrder j side)) : i ∈ sideIds side := by
  unfold sideIds at h ⊢
  rw [sideOrders_dropOrder] at h
  exact ((dropFromLevel_sublist j _).map _).subset h

theorem uncrossed_of_heads {b : Ordebook} (h : WF b) {bp ap : Price} {bl al : OrderPointers}
    {brest arest : List (Price × OrderPointers)} (hb : b.bids_ = (bp, bl) :: brest)
    (ha : b.asks_ = (ap, al) :: arest) (hlt : bp < ap) : Uncrossed b := by
  intro lb hlb la hla
  have h1 : lb.1 ≤ bp := by
    rw [hb] at hlb
    rcases List.mem_cons.1 hlb with h2 | h2
    · rw [h2]
    · have := (sortedBy_cons.1 (hb ▸ h.bidsSorted)).1 lb h2
      simp only [greater, decide_eq_true_eq] at this
      exact le_of_lt this
  have h2 : ap ≤ la.1 := by
    rw [ha] at hla
    rcases List.mem_cons.1 hla with h2 | h2
    · rw [h2]
    · have := (sortedBy_cons.1 (ha ▸ h.asksSorted)).1 la h2
      simp only [less, decide_eq_true_eq] at this
      exact le_of_lt this
  exact lt_of_le_of_lt h1 (lt_of_lt_of_le hlt h2)

theorem NoFak.dropOrder_noFak {side : List (Price × OrderPointers)} (h : NoFak side) (i : OrderID) :
    NoFak (dropOrder i side) := by
  intro o ho
  rw [sideOrders_dropOrder] at ho
  exact h o (mem_dropFromLevel.1 ho).1

theorem Uncrossed.without_uncrossed {b : Ordebook} (h : Uncrossed b) (i : OrderID) :
    Uncrossed (b.without i) := by
  intro lb hlb la hla
  obtain ⟨_, lb0, hb0, hb1⟩ := mem_dropOrder.1 hlb
  obtain ⟨_, la0, ha0, ha1⟩ := mem_dropOrder.1 hla
  rw [hb1, ha1]
  exact h lb0 hb0 la0 ha0

theorem strictTotal_comparator (s : Side) : StrictTotal (comparator s) := by
  cases s
  · exact strictTotal_greater
  · exact strictTotal_less

theorem WF.sorted {b : Ordebook} (h : WF b) (s : Side) : SortedBy (comparator s) (b.side s) := by
  cases s
  · exact h.bidsSorted
  · exact h.asksSorted

section PushBack

variable {before : Price → Price → Bool}

theorem mem_mapSet {κ ν : Type} [DecidableEq κ] {m : List (κ × ν)} {k : κ} {v : ν}
    {l : κ × ν} (h : l ∈ mapSet m k v) : l = (k, v) ∨ (l ∈ m ∧ l.1 ≠ k) := by
  unfold mapSet at h
  obtain ⟨e, he, h1⟩ := List.mem_map.1 h
  by_cases hk : e.1 = k
  · rw [if_pos hk] at h1
    left; rw [← h1, hk]
  · rw [if_neg hk] at h1
    right; rw [← h1]; exact ⟨he, hk⟩

theorem pushBack_of_none {side : List (Price × OrderPointers)} {p : Price}
    (h : mapFind? side p = none) (o : Order) :
    pushBack before side p o = insertNode before side p [o] := by
  have hc : mapContains side p = false := mapContains_eq_false.2 h
  simp only [pushBack, mapInsert, hc, Bool.false_eq_true, if_false]
  rw [levelAt_of_find (mapFind?_insertNode_self before h []), List.nil_append,
    mapSet_insertNode before h]

theorem pushBack_of_some {side : List (Price × OrderPointers)} {p : Price} {os : OrderPointers}
    (h : mapFind? side p = some os) (o : Order) :
    pushBack before side p o = mapSet side p (os ++ [o]) := by
  have hc : mapContains side p = true := mapContains_eq_true.2 ⟨_, h⟩
  simp only [pushBack, mapInsert, hc, if_true]
  rw [levelAt_of_find h]

theorem mapFind?_pushBack_self (side : List (Price × OrderPointers)) (p : Price) (o : Order) :
    mapFind? (pushBack before side p o) p = some (levelAt side p ++ [o]) := by
  cases h : mapFind? side p with
  | none =>
    rw [pushBack_of_none h, mapFind?_insertNode_self before h, levelAt_of_none h,
      List.nil_append]
  | some os =>
    rw [pushBack_of_some h, mapFind?_mapSet_self, h, levelAt_of_find h]
    rfl

theorem mapFind?_pushBack_ne (side : List (Price × OrderPointers)) {p p1 : Price} (hp : p1 ≠ p)
    (o : Order) : mapFind? (pushBack before side p o) p1 = mapFind? side p1 := by
  cases h : mapFind? side p with
  | none => rw [pushBack_of_none h, mapFind?_insertNode_ne before _ hp]
  | some os => rw [pushBack_of_some h, mapFind?_mapSet_ne _ hp]

theorem levelAt_pushBack_self (side : List (Price × OrderPointers)) (p : Price) (o : Order) :
    levelAt (pushBack before side p o) p = levelAt side p ++ [o] :=
  levelAt_of_find (mapFind?_pushBack_self side p o)

theorem levelAt_pushBack_ne (side : List (Price × OrderPointers)) {p p1 : Price} (hp : p1 ≠ p)
    (o : Order) : levelAt (pushBack before side p o) p1 = levelAt side p1 := by
  unfold levelAt
  rw [mapFind?_pushBack_ne side hp]

theorem mem_levelAt_pushBack {side : List (Price × OrderPointers)} {p1 : Price} {x : Order}
    (h : x ∈ levelAt side p1) (p : Price) (o : Order) :
    x ∈ levelAt (pushBack before side p o) p1 := by
  by_cases hp : p1 = p
  · subst hp
    rw [levelAt_pushBack_self]
    exact List.mem_append_left _ h
  · rw [levelAt_pushBack_ne side hp]
    exact h

theorem mem_pushBack {side : List (Price × OrderPointers)} {p : Price} {o : Order}
    {l : Price × OrderPointers} (h : l ∈ pushBack before side p o) :
    l = (p, levelAt side p ++ [o]) ∨ (l ∈ side ∧ l.1 ≠ p) := by
  cases hf : mapFind? side p with
  | none =>
    rw [pushBack_of_none hf] at h
    rcases (mem_insertNode _ _ _ _ _).1 h with h1 | h1
    · left; rw [h1, levelAt_of_none hf, List.nil_append]
    · right; exact ⟨h1, (mapFind?_eq_none.1 hf) l h1⟩
  | some os =>
    rw [pushBack_of_some hf] at h
    rcases mem_mapSet h with h1 | h1
    · left; rw [h1, levelAt_of_find hf]
    · right; exact h1

theorem SortedBy.pushBack_sorted (hb : StrictTotal before) {side : List (Price × OrderPointers)}
    (hs : SortedBy before side) (p : Price) (o : Order) :
    SortedBy before (pushBack before side p o) := by
  cases hf : mapFind? side p with
  | none => rw [pushBack_of_none hf]; exact hs.insertNode_sorted hb hf _
  | some os => rw [pushBack_of_some hf]; exact hs.mapSet _ _

theorem sideOrders_mapSet_perm (hb : StrictTotal before) {side : List (Price × OrderPointers)}
    (hs : SortedBy before side) {p : Price} {os : OrderPointers}
    (hf : mapFind? side p = some os) (o : Order) :
    (sideOrders (mapSet side p (os ++ [o]))).Perm (o :: sideOrders side) := by
  induction side with
  | nil => simp at hf
  | cons l rest ih =>
    obtain ⟨p1, os1⟩ := l
    by_cases hp : p1 = p
    · subst hp
      rw [mapFind?_cons_self] at hf
      cases hf
      rw [mapSet_cons_self _ _ _ _ (hs.tail_find hb), sideOrders_cons, sideOrders_cons,
        List.append_assoc]
      exact List.perm_middle
    · rw [mapFind?_cons_ne hp] at hf
      rw [mapSet_cons, if_neg hp, sideOrders_cons, sideOrders_cons]
      exact ((ih (sortedBy_cons.1 hs).2 hf).append_left os1).trans List.perm_middle

theorem sideOrders_insertNode_perm (side : List (Price × OrderPointers)) (p : Price)
    (o : Order) : (sideOrders (insertNode before side p [o])).Perm (o :: sideOrders side) := by
  induction side with
  | nil => simp [insertNode, sideOrders]
  | cons l rest ih =>
    obtain ⟨p1, os1⟩ := l
    by_cases h : before p p1 = true
    · rw [insertNode_cons_pos h, sideOrders_cons]
      exact List.Perm.refl _
    · rw [insertNode_cons_neg h, sideOrders_cons, sideOrders_cons]
      exact (ih.append_left os1).trans List.perm_middle

theorem sideOrders_pushBack_perm (hb : StrictTotal before) {side : List (Price × OrderPointers)}
    (hs : SortedBy before side) (p : Price) (o : Order) :
    (sideOrders (pushBack before side p o)).Perm (o :: sideOrders side) := by
  cases hf : mapFind? side p with
  | none => rw [pushBack_of_none hf]; exact sideOrders_insertNode_perm side p o
  | some os => rw [pushBack_of_some hf]; exact sideOrders_mapSet_perm hb hs hf o

theorem sideIds_pushBack_perm (hb : StrictTotal before) {side : List (Price × OrderPointers)}
    (hs : SortedBy before side) (p : Price) (o : Order) :
    (sideIds (pushBack before side p o)).Perm (o.orderId_ :: sideIds side) :=
  (sideOrders_pushBack_perm hb hs p o).map _

/-- An order priced before every level of the side opens a new best level. -/
theorem pushBack_top {side : List (Price × OrderPointers)} {p : Price}
    (hirr : ∀ a, before a a = false) (h : ∀ l ∈ side, before p l.1 = true) (o : Order) :
    pushBack before side p o = (p, [o]) :: side := by
  have hf : mapFind? side p = none := by
    rw [mapFind?_eq_none]
    intro l hl h1
    have := h l hl
    rw [h1, hirr] at this
    exact Bool.noConfusion this
  rw [pushBack_of_none hf]
  cases side with
  | nil => rfl
  | cons l rest =>
    obtain ⟨p1, os1⟩ := l
    exact insertNode_cons_pos (h (p1, os1) (List.mem_cons_self _ _)) _ _ _

end PushBack

theorem Placed.insertNode_placed {s : Side} {side : List (Price × OrderPointers)}
    {orders : List (OrderID × OrderEntry)} (h : Placed s side orders) {i : OrderID}
    (hi : mapFind? orders i = none) (e : OrderEntry) :
    Placed s side (insertNode idBefore orders i e) := by
  intro l hl
  refine ⟨(h l hl).1, ?_⟩
  intro o ho
  have := (h l hl).2 o ho
  refine ⟨this.1, this.2.1, ?_⟩
  rw [mapFind?_insertNode_ne]
  · exact this.2.2
  · intro h1
    rw [h1, hi] at this
    exact absurd this.2.2 (by simp)

theorem Placed.pushBack_placed {before : Price → Price → Bool} {s : Side}
    {side : List (Price × OrderPointers)} {orders : List (OrderID × OrderEntry)}
    (h : Placed s side orders) {o : Order} (hs : o.side_ = s)
    (hi : mapFind? orders o.orderId_ = none) :
    Placed s (LimitOrderbook.pushBack before side o.price_ o)
      (LimitOrderbook.insertNode idBefore orders o.orderId_ { order_ := o }) := by
  intro l hl
  rcases mem_pushBack hl with h1 | h1
  · subst h1
    refine ⟨by simp, ?_⟩
    intro o1 ho1
    rcases List.mem_append.1 ho1 with h2 | h2
    · obtain ⟨os, hos, hmem⟩ := find_of_mem_levelAt h2
      exact (h.insertNode_placed hi _ _ (mem_of_mapFind? hos)).2 o1 hmem
    · rw [List.mem_singleton] at h2
      subst h2
      exact ⟨hs, rfl, mapFind?_insertNode_self _ hi _⟩
  · exact h.insertNode_placed hi _ l h1.1

theorem Ordebook.insertOrder_orders (b : Ordebook) (o : Order)
    (hi : mapFind? b.orders_ o.orderId_ = none) :
    (b.insertOrder o).orders_ = insertNode idBefore b.orders_ o.orderId_ { order_ := o } := by
  have hc : mapContains b.orders_ o.orderId_ = false := mapContains_eq_false.2 hi
  unfold Ordebook.insertOrder
  by_cases hs : o.side_ = Side.Buy
  · simp [hs, mapInsert, hc]
  · simp [hs, mapInsert, hc]

theorem Ordebook.insertOrder_side (b : Ordebook) (o : Order) :
    (b.insertOrder o).side o.side_ = pushBack (comparator o.side_) (b.side o.side_) o.price_ o := by
  unfold Ordebook.insertOrder
  cases hs : o.side_ <;> simp [Ordebook.side, comparator]

theorem Ordebook.insertOrder_other (b : Ordebook) (o : Order) {s : Side} (hs : s ≠ o.side_) :
    (b.insertOrder o).side s = b.side s := by
  unfold Ordebook.insertOrder
  cases s <;> cases ho : o.side_ <;> simp_all [Ordebook.side]

theorem WF.sided {b : Ordebook}
    (hsort : ∀ s, SortedBy (comparator s) (b.side s))
    (hord : SortedBy idBefore b.orders_)
    (hpl : ∀ s, Placed s (b.side s) b.orders_)
    (hidx : ∀ k e, mapFind? b.orders_ k = some e →
      e.order_.orderId_ = k ∧ e.order_ ∈ levelAt (b.side e.order_.side_) e.order_.price_)
    (hnd : (sideIds (b.side Side.Buy) ++ sideIds (b.side Side.Sell)).Nodup) : WF b where
  bidsSorted := hsort Side.Buy
  asksSorted := hsort Side.Sell
  ordersSorted := hord
  bidsPlaced := hpl Side.Buy
  asksPlaced := hpl Side.Sell
  indexed := hidx
  nodup := hnd

/-- The book is consistent at the call of `MatchOrders`. -/
theorem WF.insertOrder {b : Ordebook} (h : WF b) {o : Order}
    (hi : mapFind? b.orders_ o.orderId_ = none) : WF (b.insertOrder o) := by
  have hnot : o.orderId_ ∉ sideIds b.bids_ ++ sideIds b.asks_ := by
    rw [h.mem_ids_iff, mapContains_eq_false.2 hi]; simp
  apply WF.sided
  · intro s
    by_cases hs : s = o.side_
    · subst hs
      rw [Ordebook.insertOrder_side]
      exact (h.sorted _).pushBack_sorted (strictTotal_comparator _) _ _
    · rw [Ordebook.insertOrder_other b o hs]; exact h.sorted s
  · rw [Ordebook.insertOrder_orders b o hi]
    exact h.ordersSorted.insertNode_sorted strictTotal_idBefore hi _
  · intro s
    rw [Ordebook.insertOrder_orders b o hi]
    by_cases hs : s = o.side_
    · subst hs
      rw [Ordebook.insertOrder_side]
      exact (h.placed _).pushBack_placed rfl hi
    · rw [Ordebook.insertOrder_other b o hs]
      exact (h.placed s).insertNode_placed hi _
  · intro k e he
    rw [Ordebook.insertOrder_orders b o hi] at he
    by_cases hk : k = o.orderId_
    · subst hk
      rw [mapFind?_insertNode_self _ hi] at he
      cases he
      refine ⟨rfl, ?_⟩
      rw [Ordebook.insertOrder_side, levelAt_pushBack_self]
      simp
    · rw [mapFind?_insertNode_ne _ _ hk] at he
      obtain ⟨h1, h2⟩ := h.indexed k e he
      refine ⟨h1, ?_⟩
      by_cases hs : e.order_.side_ = o.side_
      · rw [hs, Ordebook.insertOrder_side]
        rw [hs] at h2
        exact mem_levelAt_pushBack h2 _ _
      · rw [Ordebook.insertOrder_other b o hs]; exact h2
  · have hb : b.side Side.Buy = b.bids_ := rfl
    have ha : b.side Side.Sell = b.asks_ := rfl
    cases hs : o.side_ with
    | Buy =>
      have e1 := Ordebook.insertOrder_side b o
      rw [hs] at e1
      rw [e1, Ordebook.insertOrder_other b o (by rw [hs]; simp), hb, ha]
      have hp := sideIds_pushBack_perm (strictTotal_comparator Side.Buy) (h.sorted Side.Buy)
        o.price_ o
      rw [hb] at hp
      refine (List.Perm.nodup_iff (hp.append_right _)).2 ?_
      rw [List.cons_append, List.nodup_cons]
      exact ⟨hnot, h.nodup⟩
    | Sell =>
      have e1 := Ordebook.insertOrder_side b o
      rw [hs] at e1
      rw [e1, Ordebook.insertOrder_other b o (by rw [hs]; simp), hb, ha]
      have hp := sideIds_pushBack_perm (strictTotal_comparator Side.Sell) (h.sorted Side.Sell)
        o.price_ o
      rw [ha] at hp
      refine (List.Perm.nodup_iff ((hp.append_left _).trans List.perm_middle)).2 ?_
      rw [List.nodup_cons]
      exact ⟨hnot, h.nodup⟩

theorem Inv.noFak {b : Ordebook} (h : Inv b) (s : Side) : NoFak (b.side s) := by
  cases s
  · exact h.noFakBids
  · exact h.noFakAsks

theorem Inv.empty_inv : Inv Ordebook.empty where
  wf := WF.empty_wf
  uncrossed := by intro lb hlb; simp [Ordebook.empty] at hlb
  noFakBids := by intro o ho; simp [Ordebook.empty, sideOrders] at ho
  noFakAsks := by intro o ho; simp [Ordebook.empty, sideOrders] at ho

theorem Inv.without_inv {b : Ordebook} (h : Inv b) (i : OrderID) : Inv (b.without i) where
  wf := h.wf.without_wf i
  uncrossed := h.uncrossed.without_uncrossed i
  noFakBids := h.noFakBids.dropOrder_noFak i
  noFakAsks := h.noFakAsks.dropOrder_noFak i

/-- `CancelOrder` returns on every book that satisfies the invariant, and keeps
the invariant. -/
theorem Inv.cancelOrder_inv {b : Ordebook} (h : Inv b) (i : OrderID) :
    ∃ b1, b.CancelOrder i = .ok b1 ∧ Inv b1 := by
  cases hf : mapFind? b.orders_ i with
  | none => exact ⟨b, CancelOrder_of_unknown hf, h⟩
  | some e => exact ⟨_, CancelOrder_eq_without h.wf hf, h.without_inv i⟩

/-- The modify operation returns only for a known id, and then changes nothing. -/
theorem MatchOrder_eq (b : Ordebook) (m : OrderModify) :
    b.MatchOrder m
      = if mapContains b.orders_ m.orderId_ = true then .ok ([], b)
        else .error Error.out_of_range := by
  unfold Ordebook.MatchOrder
  by_cases h : mapContains b.orders_ m.orderId_ = true
  · rw [if_pos h, if_pos h]
  · rw [if_neg h, if_neg h]
    have : mapFind? b.orders_ m.orderId_ = none :=
      mapContains_eq_false.1 (by simpa using h)
    simp only [this]

theorem canMatch_top {b : Ordebook} (h : Uncrossed b) {o : Order}
    (hc : b.CanMatch o.side_ o.price_ = true) :
    ∀ l ∈ b.side o.side_, comparator o.side_ o.price_ l.1 = true := by
  intro l hl
  unfold Ordebook.CanMatch at hc
  cases hs : o.side_ with
  | Buy =>
    rw [hs] at hl
    simp only [hs, if_true] at hc
    cases ha : b.asks_ with
    | nil => simp [ha] at hc
    | cons la arest =>
      obtain ⟨ap, al⟩ := la
      simp only [ha, decide_eq_true_eq] at hc
      have := h l hl (ap, al) (by rw [ha]; exact List.mem_cons_self _ _)
      simp only [comparator, greater, decide_eq_true_eq]
      exact lt_of_lt_of_le this hc
  | Sell =>
    rw [hs] at hl
    simp only [hs] at hc
    cases hb : b.bids_ with
    | nil => simp [hb] at hc
    | cons lb brest =>
      obtain ⟨bp, bl⟩ := lb
      simp [hb] at hc
      have := h (bp, bl) (by rw [hb]; exact List.mem_cons_self _ _) l hl
      simp only [comparator, less, decide_eq_true_eq]
      exact lt_of_le_of_lt hc this

theorem AddOrder_rejected {b : Ordebook} {o : Order}
    (h : mapFind? b.orders_ o.orderId_ ≠ none
      ∨ (o.orderType_ = OrderType.FillandKill ∧ ¬ b.CanMatch o.side_ o.price_ = true)) :
    b.AddOrder o = .ok ([], b) := by
  unfold Ordebook.AddOrder
  by_cases hc : mapContains b.orders_ o.orderId_ = true
  · rw [if_pos hc]
  · rw [if_neg hc]
    rcases h with h | h
    · exact absurd (mapContains_eq_false.1 (by simpa using hc)) h
    · rw [if_pos h]

/-! ### Insertion without a match -/

theorem dropOrder_insertNode {before : Price → Price → Bool}
    {side : List (Price × OrderPointers)} {o : Order} (hi : o.orderId_ ∉ sideIds side)
    (hne : ∀ l ∈ side, l.2 ≠ []) (p : Price) :
    dropOrder o.orderId_ (insertNode before side p [o]) = side := by
  have hdrop : dropFromLevel o.orderId_ [o] = [] := by simp [dropFromLevel]
  induction side with
  | nil =>
    show dropOrder o.orderId_ [(p, [o])] = []
    rw [dropOrder_cons, if_pos hdrop]
    rfl
  | cons l rest ih =>
    obtain ⟨p1, os1⟩ := l
    by_cases h : before p p1 = true
    · rw [insertNode_cons_pos h, dropOrder_cons, if_pos hdrop, dropOrder_eq_self hi hne]
    · have hi1 := hi
      rw [sideIds_cons, List.mem_append, not_or] at hi1
      have h1 : dropFromLevel o.orderId_ os1 = os1 := by
        apply dropFromLevel_eq_self
        intro o1 ho1 h2
        exact hi1.1 (List.mem_map.2 ⟨o1, ho1, h2⟩)
      rw [insertNode_cons_neg h, dropOrder_cons, h1,
        if_neg (hne (p1, os1) (List.mem_cons_self _ _)),
        ih hi1.2 (fun l hl => hne l (List.mem_cons_of_mem _ hl))]

theorem dropOrder_mapSet_append {before : Price → Price → Bool} (hb : StrictTotal before)
    {side : List (Price × OrderPointers)} (hs : SortedBy before side) {o : Order}
    (hi : o.orderId_ ∉ sideIds side) (hne : ∀ l ∈ side, l.2 ≠ []) {p : Price}
    {os : OrderPointers} (hf : mapFind? side p = some os) :
    dropOrder o.orderId_ (mapSet side p (os ++ [o])) = side := by
  induction side with
  | nil => simp at hf
  | cons l rest ih =>
    obtain ⟨p1, os1⟩ := l
    have hi1 := hi
    rw [sideIds_cons, List.mem_append, not_or] at hi1
    have h1 : dropFromLevel o.orderId_ os1 = os1 := by
      apply dropFromLevel_eq_self
      intro o1 ho1 h2
      exact hi1.1 (List.mem_map.2 ⟨o1, ho1, h2⟩)
    have hne1 : os1 ≠ [] := hne (p1, os1) (List.mem_cons_self _ _)
    have hner : ∀ l ∈ rest, l.2 ≠ [] := fun l hl => hne l (List.mem_cons_of_mem _ hl)
    by_cases hp : p1 = p
    · subst hp
      rw [mapFind?_cons_self] at hf
      cases hf
      have h2 : dropFromLevel o.orderId_ (os ++ [o]) = os := by
        have : dropFromLevel o.orderId_ (os ++ [o])
            = dropFromLevel o.orderId_ os ++ dropFromLevel o.orderId_ [o] := by
          simp [dropFromLevel]
        rw [this, h1]
        simp [dropFromLevel]
      rw [mapSet_cons_self _ _ _ _ (hs.tail_find hb), dropOrder_cons, h2, if_neg hne1,
        dropOrder_eq_self hi1.2 hner]
    · rw [mapFind?_cons_ne hp] at hf
      rw [mapSet_cons, if_neg hp, dropOrder_cons, h1, if_neg hne1,
        ih (sortedBy_cons.1 hs).2 hi1.2 hner hf]

theorem dropOrder_pushBack {before : Price → Price → Bool} (hb : StrictTotal before)
    {side : List (Price × OrderPointers)} (hs : SortedBy before side) {o : Order}
    (hi : o.orderId_ ∉ sideIds side) (hne : ∀ l ∈ side, l.2 ≠ []) (p : Price) :
    dropOrder o.orderId_ (pushBack before side p o) = side := by
  cases hf : mapFind? side p with
  | none => rw [pushBack_of_none hf]; exact dropOrder_insertNode hi hne p
  | some os => rw [pushBack_of_some hf]; exact dropOrder_mapSet_append hb hs hi hne hf

theorem Ordebook.side_eq {b c : Ordebook} (hs : ∀ s, b.side s = c.side s)
    (ho : b.orders_ = c.orders_) : b = c := by
  have h1 := hs Side.Buy
  have h2 := hs Side.Sell
  cases b
  cases c
  simp only [Ordebook.side] at h1 h2
  simp only at ho
  rw [h1, h2, ho]

/-- Removing the order that was just inserted gives the book back. -/
theorem insertOrder_without {b : Ordebook} (h : WF b) {o : Order}
    (hi : mapFind? b.orders_ o.orderId_ = none) : (b.insertOrder o).without o.orderId_ = b := by
  have hnot : o.orderId_ ∉ sideIds b.bids_ ++ sideIds b.asks_ := by
    rw [h.mem_ids_iff, mapContains_eq_false.2 hi]; simp
  rw [List.mem_append, not_or] at hnot
  have hnot1 : ∀ s, o.orderId_ ∉ sideIds (b.side s) := by
    intro s
    cases s
    · exact hnot.1
    · exact hnot.2
  apply Ordebook.side_eq
  · intro s
    rw [Ordebook.side_without]
    by_cases hs : s = o.side_
    · subst hs
      rw [Ordebook.insertOrder_side]
      exact dropOrder_pushBack (strictTotal_comparator _) (h.sorted _) (hnot1 _)
        (h.placed _).nonempty _
    · rw [Ordebook.insertOrder_other b o hs]
      exact dropOrder_eq_self (hnot1 s) (h.placed s).nonempty
  · show mapErase (b.insertOrder o).orders_ o.orderId_ = b.orders_
    rw [Ordebook.insertOrder_orders b o hi, mapErase_insertNode _ hi]

theorem canMatch_false_far {b : Ordebook} (h : WF b) {o : Order}
    (hc : b.CanMatch o.side_ o.price_ = false) :
    (o.side_ = Side.Buy → ∀ la ∈ b.asks_, o.price_ < la.1)
      ∧ (o.side_ = Side.Sell → ∀ lb ∈ b.bids_, lb.1 < o.price_) := by
  unfold Ordebook.CanMatch at hc
  constructor
  · intro hs la hla
    simp only [hs, if_true] at hc
    cases ha : b.asks_ with
    | nil => rw [ha] at hla; simp at hla
    | cons l arest =>
      obtain ⟨ap, al⟩ := l
      simp only [ha, decide_eq_false_iff_not, not_le] at hc
      rw [ha] at hla
      rcases List.mem_cons.1 hla with h1 | h1
      · rw [h1]; exact hc
      · have := (sortedBy_cons.1 (ha ▸ h.asksSorted)).1 la h1
        simp only [less, decide_eq_true_eq] at this
        exact lt_trans hc this
  · intro hs lb hlb
    simp only [hs] at hc
    cases hb : b.bids_ with
    | nil => rw [hb] at hlb; simp at hlb
    | cons l brest =>
      obtain ⟨bp, bl⟩ := l
      simp [hb] at hc
      rw [hb] at hlb
      rcases List.mem_cons.1 hlb with h1 | h1
      · rw [h1]; exact hc
      · have := (sortedBy_cons.1 (hb ▸ h.bidsSorted)).1 lb h1
        simp only [greater, decide_eq_true_eq] at this
        exact lt_trans this hc

theorem uncrossed_insertOrder {b : Ordebook} (h : Inv b) {o : Order}
    (hc : b.CanMatch o.side_ o.price_ = false) : Uncrossed (b.insertOrder o) := by
  obtain ⟨h1, h2⟩ := canMatch_false_far h.wf hc
  have hb : ∀ c : Ordebook, c.bids_ = c.side Side.Buy := fun _ => rfl
  have ha : ∀ c : Ordebook, c.asks_ = c.side Side.Sell := fun _ => rfl
  intro lb hlb la hla
  rw [hb] at hlb
  rw [ha] at hla
  cases hs : o.side_ with
  | Buy =>
    rw [Ordebook.insertOrder_other b o (by rw [hs]; simp)] at hla
    have e1 := Ordebook.insertOrder_side b o
    rw [hs] at e1
    rw [e1] at hlb
    rcases mem_pushBack hlb with h3 | h3
    · rw [h3]; exact h1 hs la hla
    · exact h.uncrossed lb h3.1 la hla
  | Sell =>
    rw [Ordebook.insertOrder_other b o (by rw [hs]; simp)] at hlb
    have e1 := Ordebook.insertOrder_side b o
    rw [hs] at e1
    rw [e1] at hla
    rcases mem_pushBack hla with h3 | h3
    · rw [h3]; exact h2 hs lb hlb
    · exact h.uncrossed lb hlb la h3.1

theorem matchLoop_of_uncrossed {b : Ordebook} (h : Uncrossed b) (fuel : Nat) (trades : Trades) :
    matchLoop (fuel + 1) b trades = .ok (b, trades) := by
  rw [matchLoop]
  cases ha : b.asks_ with
  | nil => rfl
  | cons la arest =>
    cases hb : b.bids_ with
    | nil => rfl
    | cons lb brest =>
      obtain ⟨ap, al⟩ := la
      obtain ⟨bp, bl⟩ := lb
      have := h (bp, bl) (by rw [hb]; exact List.mem_cons_self _ _) (ap, al)
        (by rw [ha]; exact List.mem_cons_self _ _)
      simp only
      rw [if_pos this]

/-! ### The matching loops -/

/-- An iteration of the inner loop on two levels that hold an order fills one of
the two front orders, pops its node, and reads through the reference to it. -/
theorem matchLevels_front (fuel : Nat) (bidPrice askPrice : Price) (b : Ordebook)
    (trades : Trades) {bid0 ask0 : Order} {bt at_ : OrderPointers}
    (hb : levelAt b.bids_ bidPrice = bid0 :: bt)
    (ha : levelAt b.asks_ askPrice = ask0 :: at_) :
    matchLevels (fuel + 1) bidPrice askPrice b trades = .error Error.undefined := by
  rw [matchLevels]
  simp only [hb, ha, Order.Fill_min_left, Order.Fill_min_right]
  by_cases h : bid0.remainingQuantity_ ≤ ask0.remainingQuantity_
  · have e : bid0.remainingQuantity_
        - min bid0.remainingQuantity_ ask0.remainingQuantity_ = 0 := by
      rw [Nat.min_eq_left h, Nat.sub_self]
    simp [Order.IsFilled, e]
  · have e : ask0.remainingQuantity_
        - min bid0.remainingQuantity_ ask0.remainingQuantity_ = 0 := by
      rw [Nat.min_eq_right (Nat.le_of_not_le h), Nat.sub_self]
    simp [Order.IsFilled, e]

/-- The outer loop on a book whose best bid is priced at or above its best ask
enters the inner loop, which ends at the read of a popped front order. -/
theorem matchLoop_crossed {b : Ordebook} {bp ap : Price} {bid0 ask0 : Order}
    {bt at_ : OrderPointers} {brest arest : List (Price × OrderPointers)}
    (hb : b.bids_ = (bp, bid0 :: bt) :: brest) (ha : b.asks_ = (ap, ask0 :: at_) :: arest)
    (hc : ap ≤ bp) (fuel : Nat) (trades : Trades) :
    matchLoop (fuel + 2) b trades = .error Error.undefined := by
  rw [matchLoop]
  simp only [ha, hb]
  rw [if_neg (not_lt.2 hc),
    matchLevels_front fuel bp ap b trades (by rw [hb]; exact levelAt_cons_self _ _ _)
      (by rw [ha]; exact levelAt_cons_self _ _ _)]

/-- The block after the loops does nothing on a side without FillandKill order. -/
theorem cancelFront_of_noFak {side : List (Price × OrderPointers)} (b : Ordebook)
    (hne : ∀ l ∈ side, l.2 ≠ []) (hn : NoFak side) :
    cancelFrontFillandKill side b = .ok b := by
  cases side with
  | nil => rfl
  | cons l rest =>
    obtain ⟨p, os⟩ := l
    cases os with
    | nil => exact absurd rfl (hne (p, []) (List.mem_cons_self _ _))
    | cons o os1 =>
      have h1 : o.orderType_ ≠ OrderType.FillandKill :=
        hn o (mem_sideOrders.2 ⟨(p, o :: os1), List.mem_cons_self _ _, List.mem_cons_self _ _⟩)
      unfold cancelFrontFillandKill
      simp only [if_neg h1]

theorem NoFak.insertOrder_noFak {b : Ordebook} (h : Inv b) {o : Order}
    (ht : o.orderType_ = OrderType.GoodTillCancel) (s : Side) :
    NoFak ((b.insertOrder o).side s) := by
  intro o1 ho1
  by_cases hs : s = o.side_
  · subst hs
    rw [Ordebook.insertOrder_side] at ho1
    have := (sideOrders_pushBack_perm (strictTotal_comparator _) (h.wf.sorted _)
      o.price_ o).subset ho1
    rcases List.mem_cons.1 this with h9 | h9
    · rw [h9, ht]; simp
    · exact h.noFak _ o1 h9
  · rw [Ordebook.insertOrder_other b o hs] at ho1
    exact h.noFak s o1 ho1

/-- The book with a GoodTillCancel order that does not cross inserted satisfies
the invariant. -/
theorem Inv.insertOrder_inv {b : Ordebook} (h : Inv b) {o : Order}
    (ht : o.orderType_ = OrderType.GoodTillCancel)
    (hi : mapFind? b.orders_ o.orderId_ = none)
    (hc : b.CanMatch o.side_ o.price_ = false) : Inv (b.insertOrder o) :=
  ⟨h.wf.insertOrder hi, uncrossed_insertOrder h hc,
    NoFak.insertOrder_noFak h ht Side.Buy, NoFak.insertOrder_noFak h ht Side.Sell⟩

/-- A GoodTillCancel order that does not cross rests: `AddOrder` returns no trade
and the book with the order inserted. -/
theorem AddOrder_resting {b : Ordebook} (h : Inv b) {o : Order}
    (ht : o.orderType_ = OrderType.GoodTillCancel)
    (hi : mapFind? b.orders_ o.orderId_ = none)
    (hc : b.CanMatch o.side_ o.price_ = false) :
    b.AddOrder o = .ok ([], b.insertOrder o) := by
  have hacc : ¬ (o.orderType_ = OrderType.FillandKill ∧ ¬ b.CanMatch o.side_ o.price_ = true) := by
    rw [ht]; simp
  have hinv := h.insertOrder_inv ht hi hc
  have h8 : matchFuel (b.insertOrder o) = (b.insertOrder o).count + 1 + 1 := rfl
  unfold Ordebook.AddOrder
  rw [if_neg (by rw [mapContains_eq_false.2 hi]; simp), if_neg hacc]
  unfold Ordebook.MatchOrders
  simp only
  rw [h8, matchLoop_of_uncrossed hinv.uncrossed]
  simp only
  rw [cancelFront_of_noFak _ (fun l hl => (hinv.wf.bidsPlaced l hl).1) hinv.noFakBids]
  simp only
  rw [cancelFront_of_noFak _ (fun l hl => (hinv.wf.asksPlaced l hl).1) hinv.noFakAsks]

/-- An order that crosses the book: `AddOrder` inserts it and enters the loops,
whose first iteration ends at the read of a popped front order. -/
theorem AddOrder_crossing {b : Ordebook} (h : Inv b) {o : Order}
    (hi : mapFind? b.orders_ o.orderId_ = none)
    (hc : b.CanMatch o.side_ o.price_ = true) :
    b.AddOrder o = .error Error.undefined := by
  have hacc : ¬ (o.orderType_ = OrderType.FillandKill ∧ ¬ b.CanMatch o.side_ o.price_ = true) :=
    fun h1 => h1.2 hc
  have hside : (b.insertOrder o).side o.side_ = (o.price_, [o]) :: b.side o.side_ := by
    rw [Ordebook.insertOrder_side]
    exact pushBack_top (strictTotal_comparator o.side_).irrefl (canMatch_top h.uncrossed hc) o
  have hloop : matchLoop (matchFuel (b.insertOrder o)) (b.insertOrder o) []
      = .error Error.undefined := by
    have h8 : matchFuel (b.insertOrder o) = (b.insertOrder o).count + 2 := rfl
    rw [h8]
    unfold Ordebook.CanMatch at hc
    cases hs : o.side_ with
    | Buy =>
      rw [hs] at hside
      have hother : (b.insertOrder o).side Side.Sell = b.side Side.Sell :=
        Ordebook.insertOrder_other b o (by rw [hs]; decide)
      simp only [hs, if_true] at hc
      cases ha : b.asks_ with
      | nil => simp [ha] at hc
      | cons la arest =>
        obtain ⟨ap, al⟩ := la
        simp only [ha, decide_eq_true_eq] at hc
        cases al with
        | nil =>
          exact absurd rfl ((h.wf.asksPlaced (ap, []) (by rw [ha]; exact List.mem_cons_self _ _)).1)
        | cons ask0 at_ =>
          exact matchLoop_crossed hside (hother.trans ha) hc _ _
    | Sell =>
      rw [hs] at hside
      have hother : (b.insertOrder o).side Side.Buy = b.side Side.Buy :=
        Ordebook.insertOrder_other b o (by rw [hs]; decide)
      simp only [hs] at hc
      cases hb : b.bids_ with
      | nil => simp [hb] at hc
      | cons lb brest =>
        obtain ⟨bp, bl⟩ := lb
        simp [hb] at hc
        cases bl with
        | nil =>
          exact absurd rfl ((h.wf.bidsPlaced (bp, []) (by rw [hb]; exact List.mem_cons_self _ _)).1)
        | cons bid0 bt =>
          exact matchLoop_crossed (hother.trans hb) hside hc _ _
  unfold Ordebook.AddOrder
  rw [if_neg (by rw [mapContains_eq_false.2 hi]; simp), if_neg hacc]
  unfold Ordebook.MatchOrders
  simp only
  rw [hloop]

/-- What a call of `AddOrder` that returns has done: it has made no trade, and
the book is the one of the call, or the one of the call with the order, a
GoodTillCancel order that does not cross, inserted. -/
theorem AddOrder_returned {b : Ordebook} (h : Inv b) {o : Order} {trades : Trades}
    {b1 : Ordebook} (hr : b.AddOrder o = .ok (trades, b1)) :
    trades = [] ∧ (b1 = b ∨ (b1 = b.insertOrder o ∧ mapFind? b.orders_ o.orderId_ = none
      ∧ o.orderType_ = OrderType.GoodTillCancel ∧ b.CanMatch o.side_ o.price_ = false)) := by
  by_cases hrej : mapFind? b.orders_ o.orderId_ ≠ none
      ∨ (o.orderType_ = OrderType.FillandKill ∧ ¬ b.CanMatch o.side_ o.price_ = true)
  · rw [AddOrder_rejected hrej] at hr
    cases hr
    exact ⟨rfl, Or.inl rfl⟩
  · rw [not_or, not_not] at hrej
    rcases Bool.eq_false_or_eq_true (b.CanMatch o.side_ o.price_) with hc | hc
    · rw [AddOrder_crossing h hrej.1 hc] at hr
      cases hr
    · have ht : o.orderType_ = OrderType.GoodTillCancel := by
        cases hty : o.orderType_ with
        | GoodTillCancel => rfl
        | FillandKill => exact absurd ⟨hty, by rw [hc]; simp⟩ hrej.2
      rw [AddOrder_resting h ht hrej.1 hc] at hr
      cases hr
      exact ⟨rfl, Or.inr ⟨rfl, hrej.1, ht, hc⟩⟩

/-- A call of `AddOrder` that returns keeps the invariant. -/
theorem Inv.addOrder_inv {b : Ordebook} (h : Inv b) {o : Order} {trades : Trades}
    {b1 : Ordebook} (hr : b.AddOrder o = .ok (trades, b1)) : Inv b1 := by
  rcases (AddOrder_returned h hr).2 with h1 | ⟨h1, h2, h3, h4⟩
  · rw [h1]; exact h
  · rw [h1]; exact h.insertOrder_inv h3 h2 h4

/-- Every reachable book satisfies the invariant. -/
theorem Reachable.inv {b : Ordebook} (h : Reachable b) : Inv b := by
  induction h with
  | empty => exact Inv.empty_inv
  | add o _ _ hr ih => exact ih.addOrder_inv hr
  | cancel i _ hr ih =>
    obtain ⟨b2, h2, h3⟩ := ih.cancelOrder_inv i
    rw [h2] at hr
    cases hr
    exact h3
  | modify m _ hr ih =>
    rw [MatchOrder_eq] at hr
    split at hr
    · cases hr
      exact ih
    · cases hr

/-! ### Cancelling a resting order -/

theorem length_mapErase {κ ν : Type} [DecidableEq κ] {before : κ → κ → Bool}
    (hb : StrictTotal before) {m : List (κ × ν)} (hs : SortedBy before m) {k : κ} {v : ν}
    (hf : mapFind? m k = some v) : (mapErase m k).length + 1 = m.length := by
  induction m with
  | nil => simp at hf
  | cons e rest ih =>
    obtain ⟨k1, v1⟩ := e
    by_cases hk : k1 = k
    · subst hk
      rw [mapErase_cons_self _ _ _ (hs.tail_find hb)]
      rfl
    · rw [mapFind?_cons_ne hk] at hf
      rw [mapErase_cons, if_neg hk, List.length_cons, List.length_cons,
        ih (sortedBy_cons.1 hs).2 hf]

theorem mapFind?_dropOrder {before : Price → Price → Bool} (hb : StrictTotal before)
    {side : List (Price × OrderPointers)} (hs : SortedBy before side) (i : OrderID) (p : Price) :
    mapFind? (dropOrder i side) p
      = (mapFind? side p).bind
          (fun os => if dropFromLevel i os = [] then none else some (dropFromLevel i os)) := by
  induction side with
  | nil => rfl
  | cons l rest ih =>
    obtain ⟨p1, os⟩ := l
    have hrest := (sortedBy_cons.1 hs).2
    rw [dropOrder_cons]
    by_cases hp : p1 = p
    · subst hp
      rw [mapFind?_cons_self]
      by_cases h : dropFromLevel i os = []
      · rw [if_pos h, mapFind?_dropOrder_none (hs.tail_find hb)]
        simp [h]
      · rw [if_neg h, mapFind?_cons_self]
        simp [h]
    · rw [mapFind?_cons_ne hp]
      by_cases h : dropFromLevel i os = []
      · rw [if_pos h, ih hrest]
      · rw [if_neg h, mapFind?_cons_ne hp, ih hrest]

theorem ids_ne_of_levels {side : List (Price × OrderPointers)} (hn : (sideIds side).Nodup)
    {l l1 : Price × OrderPointers} (hl : l ∈ side) (hl1 : l1 ∈ side) (hp : l.1 ≠ l1.1)
    {o o1 : Order} (ho : o ∈ l.2) (ho1 : o1 ∈ l1.2) : o.orderId_ ≠ o1.orderId_ := by
  induction side with
  | nil => simp at hl
  | cons l0 rest ih =>
    obtain ⟨p0, os0⟩ := l0
    rw [sideIds_cons, List.nodup_append] at hn
    rcases List.mem_cons.1 hl with h | h
    · rcases List.mem_cons.1 hl1 with h1 | h1
      · rw [h, h1] at hp; exact absurd rfl hp
      · subst h
        intro h2
        exact hn.2.2 (List.mem_map.2 ⟨o, ho, rfl⟩) (mem_sideIds.2 ⟨l1, h1, o1, ho1, h2.symm⟩)
    · rcases List.mem_cons.1 hl1 with h1 | h1
      · subst h1
        intro h2
        exact hn.2.2 (List.mem_map.2 ⟨o1, ho1, rfl⟩) (mem_sideIds.2 ⟨l, h, o, ho, h2⟩)
      · exact ih hn.2.1 h h1

theorem dropFromLevel_split {pre post : OrderPointers} {o : Order}
    (hn : ((pre ++ o :: post).map (fun x => x.orderId_)).Nodup) :
    dropFromLevel o.orderId_ (pre ++ o :: post) = pre ++ post := by
  rw [List.map_append, List.map_cons, List.nodup_append] at hn
  have h1 : dropFromLevel o.orderId_ pre = pre := by
    apply dropFromLevel_eq_self
    intro x hx h2
    exact hn.2.2 (List.mem_map.2 ⟨x, hx, h2⟩) (List.mem_cons_self _ _)
  have h2 : dropFromLevel o.orderId_ post = post := by
    apply dropFromLevel_eq_self
    intro x hx h2
    exact (List.nodup_cons.1 hn.2.1).1 (List.mem_map.2 ⟨x, hx, h2⟩)
  have h3 : dropFromLevel o.orderId_ (pre ++ o :: post)
      = dropFromLevel o.orderId_ pre ++ dropFromLevel o.orderId_ (o :: post) := by
    simp [dropFromLevel]
  rw [h3, dropFromLevel_cons_self, h1, h2]

theorem WF.side_ids_nodup {b : Ordebook} (h : WF b) (s : Side) : (sideIds (b.side s)).Nodup := by
  cases s
  · exact h.bids_ids_nodup
  · exact h.asks_ids_nodup

theorem WF.not_mem_other {b : Ordebook} (h : WF b) {s s1 : Side} (hs : s1 ≠ s) {i : OrderID}
    (hi : i ∈ sideIds (b.side s)) : i ∉ sideIds (b.side s1) := by
  intro h1
  cases s <;> cases s1
  · exact hs rfl
  · exact h.ids_disjoint hi h1
  · exact h.ids_disjoint h1 hi
  · exact hs rfl

theorem scenarioOne_reachable : Reachable scenarioOne :=
  @Reachable.add Ordebook.empty scenarioOne []
    (Order.new OrderType.GoodTillCancel 1 Side.Buy 100 10) Reachable.empty (Nat.le_refl _) rfl

theorem scenarioFour_reachable : Reachable scenarioFour :=
  @Reachable.add Ordebook.empty scenarioFour []
    (Order.new OrderType.GoodTillCancel 9 Side.Sell 100 5) Reachable.empty (Nat.le_refl _) rfl

theorem quotedBook_reachable : Reachable quotedBook :=
  @Reachable.add _ quotedBook [] (Order.new OrderType.GoodTillCancel 4 Side.Sell 101 5)
    (@Reachable.add _
      { bids_ := [(100, [Order.new OrderType.GoodTillCancel 1 Side.Buy 100 10,
            Order.new OrderType.GoodTillCancel 2 Side.Buy 100 4]),
          (99, [Order.new OrderType.GoodTillCancel 3 Side.Buy 99 7])]
        asks_ := []
        orders_ := [(1, { order_ := Order.new OrderType.GoodTillCancel 1 Side.Buy 100 10 }),
          (2, { order_ := Order.new OrderType.GoodTillCancel 2 Side.Buy 100 4 }),
          (3, { order_ := Order.new OrderType.GoodTillCancel 3 Side.Buy 99 7 })] }
      [] (Order.new OrderType.GoodTillCancel 3 Side.Buy 99 7)
      (@Reachable.add scenarioOne
        { bids_ := [(100, [Order.new OrderType.GoodTillCancel 1 Side.Buy 100 10,
            Order.new OrderType.GoodTillCancel 2 Side.Buy 100 4])]
          asks_ := []
          orders_ := [(1, { order_ := Order.new OrderType.GoodTillCancel 1 Side.Buy 100 10 }),
            (2, { order_ := Order.new OrderType.GoodTillCancel 2 Side.Buy 100 4 })] }
        [] (Order.new OrderType.GoodTillCancel 2 Side.Buy 100 4) scenarioOne_reachable
        (Nat.le_refl _) rfl)
      (Nat.le_refl _) rfl)
    (Nat.le_refl _) rfl

/-- C2 (duplicate rejection).  For every book and every order whose id is in
`orders_`, `AddOrder` returns no trade and the book it was given. -/
theorem duplicate_rejected (b : Ordebook) (o : Order)
    (h : mapContains b.orders_ o.orderId_ = true) : b.AddOrder o = .ok ([], b) := by
  unfold Ordebook.AddOrder
  rw [if_pos h]

theorem duplicate_rejected_witness :
    mapContains scenarioOne.orders_ 1 = true
      ∧ scenarioOne.AddOrder (Order.new OrderType.GoodTillCancel 1 Side.Sell 90 3)
        = .ok ([], scenarioOne) :=
  ⟨rfl, duplicate_rejected scenarioOne (Order.new OrderType.GoodTillCancel 1 Side.Sell 90 3) rfl⟩

/-- C3 (a FillandKill order never rests unmatched).  For every book and every
FillandKill order for which `CanMatch` is false, `AddOrder` returns no trade and
the book it was given, so `Size` is unchanged.  `CanMatch` is false for a buy
exactly when there is no ask or the price is below the best ask, and for a sell
exactly when there is no bid or the price is above the best bid. -/
theorem fillAndKill_unmatched (b : Ordebook) (o : Order)
    (ht : o.orderType_ = OrderType.FillandKill)
    (hc : b.CanMatch o.side_ o.price_ = false) :
    (∃ b1, b.AddOrder o = .ok ([], b1) ∧ b1.Size = b.Size ∧ b1 = b)
      ∧ (∀ price : Price, b.CanMatch Side.Buy price = false
          ↔ (b.asks_ = [] ∨ ∃ l rest, b.asks_ = l :: rest ∧ price < l.1))
      ∧ (∀ price : Price, b.CanMatch Side.Sell price = false
          ↔ (b.bids_ = [] ∨ ∃ l rest, b.bids_ = l :: rest ∧ l.1 < price)) := by
  refine ⟨⟨b, AddOrder_rejected (Or.inr ⟨ht, by rw [hc]; simp⟩), rfl, rfl⟩, ?_, ?_⟩
  · intro price
    unfold Ordebook.CanMatch
    cases ha : b.asks_ with
    | nil => simp
    | cons l rest =>
      obtain ⟨ap, al⟩ := l
      simp
  · intro price
    unfold Ordebook.CanMatch
    cases hb : b.bids_ with
    | nil => simp
    | cons l rest =>
      obtain ⟨bp, bl⟩ := l
      simp

theorem fillAndKill_unmatched_witness :
    scenarioFour.CanMatch Side.Buy 99 = false
      ∧ ∃ b1, scenarioFour.AddOrder (Order.new OrderType.FillandKill 10 Side.Buy 99 5)
          = .ok ([], b1) ∧ b1.Size = scenarioFour.Size ∧ b1 = scenarioFour :=
  ⟨rfl, (fillAndKill_unmatched scenarioFour (Order.new OrderType.FillandKill 10 Side.Buy 99 5)
    rfl rfl).1⟩

/-- C5 (modify of an unknown id).  On the empty book `MatchOrder` for id 1 does
not return: `orders_.at` throws `std::out_of_range`. -/
theorem modify_unknown_id_throws :
    Ordebook.empty.MatchOrder { orderId_ := 1, side_ := Side.Buy, price_ := 100, quantity_ := 10 }
      = .error Error.out_of_range :=
  rfl

/-- C6 (modify is cancel then add).  On the book of scenario 3 `MatchOrder` for
the resting id 1 returns no trade and the same book, with order 1 still at 100;
`CancelOrder` followed by `AddOrder` moves it to 101. -/
theorem modify_known_id_does_nothing :
    scenarioThree.MatchOrder { orderId_ := 1, side_ := Side.Buy, price_ := 101, quantity_ := 2 }
        = .ok ([], scenarioThree)
      ∧ (scenarioThree.CancelOrder 1).bind
          (fun b => b.AddOrder (Order.new OrderType.GoodTillCancel 1 Side.Buy 101 2))
        = .ok ([], scenarioFive)
      ∧ levelAt scenarioThree.bids_ 101 = []
      ∧ levelAt scenarioFive.bids_ 101 = [Order.new OrderType.GoodTillCancel 1 Side.Buy 101 2] :=
  ⟨rfl, rfl, rfl, rfl⟩

theorem CancelOrder_find_self {b b1 : Ordebook} {i : OrderID} (h : b.CancelOrder i = .ok b1) :
    mapFind? b1.orders_ i = none := by
  unfold Ordebook.CancelOrder at h
  split at h
  · rename_i hf
    cases h
    exact hf
  · simp only at h
    split at h
    · split at h
      · cases h
      · split at h
        · cases h
        · cases h
          exact mapFind?_mapErase_self _ _
    · split at h
      · cases h
      · split at h
        · cases h
        · cases h
          exact mapFind?_mapErase_self _ _

/-- C7 (idempotent cancel).  For every book, `CancelOrder` of an id that is not in
`orders_` returns the book it was given; and whatever the id, a second
`CancelOrder` of it returns the book the first one returned. -/
theorem cancel_idempotent (b : Ordebook) (i : OrderID) :
    (mapContains b.orders_ i = false → b.CancelOrder i = .ok b)
      ∧ (∀ b1, b.CancelOrder i = .ok b1 → b1.CancelOrder i = .ok b1) :=
  ⟨fun h => CancelOrder_of_unknown (mapContains_eq_false.1 h),
    fun _ h => CancelOrder_of_unknown (CancelOrder_find_self h)⟩

theorem cancel_idempotent_witness :
    scenarioOne.CancelOrder 7 = .ok scenarioOne
      ∧ scenarioOne.CancelOrder 1 = .ok Ordebook.empty
      ∧ Ordebook.empty.CancelOrder 1 = .ok Ordebook.empty :=
  ⟨(cancel_idempotent scenarioOne 7).1 rfl, rfl,
    (cancel_idempotent scenarioOne 1).2 Ordebook.empty rfl⟩

/-- C8 (cancel removes exactly that order).  Let `i` be recorded in a reachable
book with the entry `e`.  `CancelOrder i` returns a book `b1` in which `i` is
neither in the index nor in a level and every other index entry is unchanged;
`Size` is one less; the level of the order is the old one with exactly this
order taken out, the others keeping their place and quantity, and the level is
deleted exactly when nothing is left in it; every other level of that side and
the whole other side are unchanged. -/
theorem cancel_removes_exactly (b : Ordebook) (h : Reachable b) (i : OrderID) (e : OrderEntry)
    (hf : mapFind? b.orders_ i = some e) :
    ∃ b1, b.CancelOrder i = .ok b1
      ∧ mapFind? b1.orders_ i = none
      ∧ (∀ k, k ≠ i → mapFind? b1.orders_ k = mapFind? b.orders_ k)
      ∧ (∀ l ∈ b1.bids_ ++ b1.asks_, ∀ o ∈ l.2, o.orderId_ ≠ i)
      ∧ b1.Size + 1 = b.Size
      ∧ (∃ pre post, mapFind? (b.side e.order_.side_) e.order_.price_
            = some (pre ++ e.order_ :: post)
          ∧ mapFind? (b1.side e.order_.side_) e.order_.price_
            = (if pre ++ post = [] then none else some (pre ++ post)))
      ∧ (∀ p, p ≠ e.order_.price_ →
          mapFind? (b1.side e.order_.side_) p = mapFind? (b.side e.order_.side_) p)
      ∧ (∀ s, s ≠ e.order_.side_ → b1.side s = b.side s) := by
  have hw := h.inv.wf
  obtain ⟨hid, hmem⟩ := hw.indexed i e hf
  obtain ⟨os, hos, hmem1⟩ := find_of_mem_levelAt hmem
  obtain ⟨pre, post, hsplit⟩ := List.append_of_mem hmem1
  have hin : i ∈ sideIds (b.side e.order_.side_) :=
    mem_sideIds.2 ⟨_, mem_of_mapFind? hos, _, hmem1, hid⟩
  have hnd := level_ids_nodup (hw.side_ids_nodup e.order_.side_) (mem_of_mapFind? hos)
  have hdrop : dropFromLevel i os = pre ++ post := by
    rw [hsplit, ← hid]
    exact dropFromLevel_split (hsplit ▸ hnd)
  refine ⟨b.without i, CancelOrder_eq_without hw hf, mapFind?_mapErase_self _ _,
    fun k hk => mapFind?_mapErase_ne _ hk, ?_, ?_, ⟨pre, post, hsplit ▸ hos, ?_⟩, ?_, ?_⟩
  · intro l hl o ho
    have : l ∈ dropOrder i b.bids_ ∨ l ∈ dropOrder i b.asks_ := List.mem_append.1 hl
    rcases this with h1 | h1
    · obtain ⟨_, l0, _, h3⟩ := mem_dropOrder.1 h1
      rw [h3] at ho
      exact (mem_dropFromLevel.1 ho).2
    · obtain ⟨_, l0, _, h3⟩ := mem_dropOrder.1 h1
      rw [h3] at ho
      exact (mem_dropFromLevel.1 ho).2
  · exact length_mapErase strictTotal_idBefore hw.ordersSorted hf
  · rw [Ordebook.side_without, mapFind?_dropOrder (strictTotal_comparator _) (hw.sorted _), hos]
    simp only [Option.bind, hdrop]
  · intro p hp
    rw [Ordebook.side_without, mapFind?_dropOrder (strictTotal_comparator _) (hw.sorted _)]
    cases hfp : mapFind? (b.side e.order_.side_) p with
    | none => rfl
    | some os1 =>
      have hl1 := mem_of_mapFind? hfp
      have h1 : dropFromLevel i os1 = os1 := by
        apply dropFromLevel_eq_self
        intro o1 ho1
        rw [← hid]
        exact ids_ne_of_levels (hw.side_ids_nodup _) hl1 (mem_of_mapFind? hos) hp ho1 hmem1
      simp only [Option.bind, h1, if_neg ((hw.placed _).nonempty _ hl1)]
  · intro s hs
    rw [Ordebook.side_without]
    exact dropOrder_eq_self (hw.not_mem_other hs hin) (hw.placed s).nonempty

theorem cancel_removes_exactly_witness :
    Reachable quotedBook
      ∧ ∃ b1, quotedBook.CancelOrder 1 = .ok b1
        ∧ mapFind? b1.orders_ 1 = none
        ∧ b1.Size + 1 = quotedBook.Size
        ∧ ∀ s, s ≠ Side.Buy → b1.side s = quotedBook.side s := by
  refine ⟨quotedBook_reachable, ?_⟩
  obtain ⟨b1, h1, h2, _, _, h5, _, _, h8⟩ :=
    cancel_removes_exactly quotedBook quotedBook_reachable 1
      { order_ := Order.new OrderType.GoodTillCancel 1 Side.Buy 100 10 } rfl
  exact ⟨b1, h1, h2, h5, h8⟩

/-- C9 (add, then cancel).  For a reachable book and a GoodTillCancel order with a
fresh id for which `CanMatch` is false, `AddOrder` returns no trade, `Size` grows
by one, the order is at the back of the level of its side and price, and
`CancelOrder` of its id then returns the book as it was before the add. -/
theorem add_cancel_roundtrip (b : Ordebook) (h : Reachable b) (o : Order)
    (ht : o.orderType_ = OrderType.GoodTillCancel)
    (hfresh : mapContains b.orders_ o.orderId_ = false)
    (hc : b.CanMatch o.side_ o.price_ = false) :
    ∃ b1, b.AddOrder o = .ok ([], b1)
      ∧ b1.Size = b.Size + 1
      ∧ mapFind? (b1.side o.side_) o.price_ = some (levelAt (b.side o.side_) o.price_ ++ [o])
      ∧ b1.CancelOrder o.orderId_ = .ok b := by
  have hi := mapContains_eq_false.1 hfresh
  have hinv := h.inv
  refine ⟨b.insertOrder o, AddOrder_resting hinv ht hi hc, ?_, ?_, ?_⟩
  · unfold Ordebook.Size
    rw [Ordebook.insertOrder_orders b o hi, length_insertNode]
  · rw [Ordebook.insertOrder_side, mapFind?_pushBack_self]
  · have hfind : mapFind? (b.insertOrder o).orders_ o.orderId_ = some { order_ := o } := by
      rw [Ordebook.insertOrder_orders b o hi, mapFind?_insertNode_self _ hi]
    rw [CancelOrder_eq_without (hinv.wf.insertOrder hi) hfind, insertOrder_without hinv.wf hi]

theorem add_cancel_roundtrip_witness :
    Reachable Ordebook.empty
      ∧ ∃ b1, Ordebook.empty.AddOrder (Order.new OrderType.GoodTillCancel 1 Side.Buy 100 10)
          = .ok ([], b1)
        ∧ b1.Size = Ordebook.empty.Size + 1
        ∧ b1.CancelOrder 1 = .ok Ordebook.empty := by
  refine ⟨Reachable.empty, ?_⟩
  obtain ⟨b1, h1, h2, _, h4⟩ := add_cancel_roundtrip Ordebook.empty Reachable.empty
    (Order.new OrderType.GoodTillCancel 1 Side.Buy 100 10) rfl rfl rfl
  exact ⟨b1, h1, h2, h4⟩

/-! ### The index and the levels hold the same orders -/

theorem CancelOrder_no_logic_error (b : Ordebook) (i : OrderID) :
    b.CancelOrder i ≠ .error Error.logic_error := by
  intro h
  unfold Ordebook.CancelOrder at h
  split at h
  · cases h
  · simp only at h
    split at h
    · split at h
      · cases h
      · split at h
        · cases h
        · cases h
    · split at h
      · cases h
      · split at h
        · cases h
        · cases h

theorem cancelFront_no_logic_error (side : List (Price × OrderPointers)) (b : Ordebook) :
    cancelFrontFillandKill side b ≠ .error Error.logic_error := by
  intro h
  unfold cancelFrontFillandKill at h
  split at h
  · cases h
  · cases h
  · split at h
    · exact CancelOrder_no_logic_error _ _ h
    · cases h

/-- The inner loop runs out of its budget, ends at the read of a popped front
order, or returns the book and the trades it was given. -/
theorem matchLevels_result (fuel : Nat) (bidPrice askPrice : Price) (b : Ordebook)
    (trades : Trades) :
    matchLevels fuel bidPrice askPrice b trades = .error Error.out_of_fuel
      ∨ matchLevels fuel bidPrice askPrice b trades = .error Error.undefined
      ∨ matchLevels fuel bidPrice askPrice b trades = .ok (b, trades) := by
  cases fuel with
  | zero => exact Or.inl (by rw [matchLevels])
  | succ fuel =>
    cases hb : levelAt b.bids_ bidPrice with
    | nil =>
      right; right
      rw [matchLevels]
      simp only [hb]
    | cons bid0 bt =>
      cases ha : levelAt b.asks_ askPrice with
      | nil =>
        right; right
        rw [matchLevels]
        simp only [hb, ha]
      | cons ask0 at_ => exact Or.inr (Or.inl (matchLevels_front fuel _ _ b trades hb ha))

theorem matchLevels_no_logic_error (fuel : Nat) (bidPrice askPrice : Price) (b : Ordebook)
    (trades : Trades) :
    matchLevels fuel bidPrice askPrice b trades ≠ .error Error.logic_error := by
  intro h
  rcases matchLevels_result fuel bidPrice askPrice b trades with h1 | h1 | h1 <;>
    · rw [h1] at h
      cases h

theorem matchLoop_no_logic_error :
    ∀ (fuel : Nat) (b : Ordebook) (trades : Trades),
      matchLoop fuel b trades ≠ .error Error.logic_error := by
  intro fuel
  induction fuel with
  | zero =>
    intro b trades h
    rw [matchLoop] at h
    cases h
  | succ fuel ih =>
    intro b trades h
    rw [matchLoop] at h
    split at h
    · split at h
      · cases h
      · split at h
        · rename_i e he
          cases h
          exact matchLevels_no_logic_error _ _ _ _ _ he
        · exact ih _ _ h
    · cases h

theorem MatchOrders_no_logic_error (fuel : Nat) (b : Ordebook) :
    MatchOrders fuel b ≠ .error Error.logic_error := by
  intro h
  unfold Ordebook.MatchOrders at h
  split at h
  · rename_i e he
    cases h
    exact matchLoop_no_logic_error _ _ _ he
  · split at h
    · rename_i e he
      cases h
      exact cancelFront_no_logic_error _ _ he
    · split at h
      · rename_i e he
        cases h
        exact cancelFront_no_logic_error _ _ he
      · cases h

/-- C16 (the over-fill error is unreachable).  `Fill` throws exactly when the
quantity exceeds the remaining quantity, and otherwise subtracts it; the two
fills of an iteration of the matching loop, by the smaller of the remaining
quantities of the two front orders, whatever these are, do not throw; and for
every book and every order `AddOrder` does not end with the error of `Fill`,
nor does `MatchOrders` whatever the step budget of its loops. -/
theorem overfill_unreachable :
    (∀ (o : Order) (q : Quantity),
        o.Fill q = .error Error.logic_error ↔ q > o.remainingQuantity_)
      ∧ (∀ (o : Order) (q : Quantity), q ≤ o.remainingQuantity_ →
          o.Fill q = .ok { o with remainingQuantity_ := o.remainingQuantity_ - q })
      ∧ (∀ bid ask : Order,
          (∃ bid1, bid.Fill (min bid.remainingQuantity_ ask.remainingQuantity_) = .ok bid1)
            ∧ ∃ ask1, ask.Fill (min bid.remainingQuantity_ ask.remainingQuantity_) = .ok ask1)
      ∧ (∀ (b : Ordebook) (o : Order), b.AddOrder o ≠ .error Error.logic_error)
      ∧ (∀ (fuel : Nat) (b : Ordebook), MatchOrders fuel b ≠ .error Error.logic_error) := by
  refine ⟨?_, ?_, ?_, ?_, MatchOrders_no_logic_error⟩
  · intro o q
    unfold Order.Fill
    by_cases h : q > o.remainingQuantity_
    · simp [h]
    · simp [h]
  · intro o q h
    unfold Order.Fill
    rw [if_neg (not_lt.2 h)]
  · intro bid ask
    exact ⟨⟨_, Order.Fill_min_left bid ask⟩, ⟨_, Order.Fill_min_right bid ask⟩⟩
  · intro b o h
    unfold Ordebook.AddOrder at h
    split at h
    · cases h
    · split at h
      · cases h
      · exact MatchOrders_no_logic_error _ _ h

theorem overfill_unreachable_witness :
    (Order.new OrderType.GoodTillCancel 1 Side.Buy 100 10).Fill 4
        = .ok { Order.new OrderType.GoodTillCancel 1 Side.Buy 100 10 with
            remainingQuantity_ := 6 }
      ∧ (Order.new OrderType.GoodTillCancel 1 Side.Buy 100 10).Fill 11
        = .error Error.logic_error :=
  ⟨overfill_unreachable.2.1 (Order.new OrderType.GoodTillCancel 1 Side.Buy 100 10) 4
      (by decide),
    (overfill_unreachable.1 (Order.new OrderType.GoodTillCancel 1 Side.Buy 100 10) 11).2
      (by decide)⟩

/-! ### Depth snapshot -/

theorem foldl_quantity (orders : OrderPointers) (a : Nat) :
    (orders.foldl (fun runningSum order =>
        (runningSum + order.remainingQuantity_) % 2 ^ 32) a) % 2 ^ 32
      = (a + levelQuantity orders) % 2 ^ 32 := by
  induction orders generalizing a with
  | nil => simp [levelQuantity]
  | cons o rest ih =>
    rw [List.foldl_cons, ih]
    simp only [levelQuantity, List.map_cons, List.sum_cons]
    omega

theorem foldl_quantity_lt (orders : OrderPointers) (a : Nat) (ha : a < 2 ^ 32) :
    orders.foldl (fun runningSum order =>
      (runningSum + order.remainingQuantity_) % 2 ^ 32) a < 2 ^ 32 := by
  induction orders generalizing a with
  | nil => exact ha
  | cons o rest ih =>
    rw [List.foldl_cons]
    exact ih _ (Nat.mod_lt _ (by decide))

theorem CreateLevelInfos_quantity (price : Price) (orders : OrderPointers) :
    (CreateLevelInfos price orders).quantity_ = levelQuantity orders % 2 ^ 32 := by
  have h := foldl_quantity orders 0
  rw [Nat.zero_add, Nat.mod_eq_of_lt (foldl_quantity_lt orders 0 (by decide))] at h
  exact h

theorem heavyBook_reachable : Reachable heavyBook :=
  @Reachable.add
    { bids_ := [(100, [Order.new OrderType.GoodTillCancel 1 Side.Buy 100 2147483648])]
      asks_ := []
      orders_ := [(1, { order_ := Order.new OrderType.GoodTillCancel 1 Side.Buy 100 2147483648 })] }
    heavyBook [] (Order.new OrderType.GoodTillCancel 2 Side.Buy 100 2147483648)
    (@Reachable.add Ordebook.empty _ []
      (Order.new OrderType.GoodTillCancel 1 Side.Buy 100 2147483648) Reachable.empty
      (Nat.le_refl _) rfl)
    (Nat.le_refl _) rfl

/-- C15, the claim as stated fails: in the reachable book `heavyBook` the level at
100 holds 2 ^ 31 + 2 ^ 31 = 2 ^ 32, and `GetOrderInfos` reports the quantity 0. -/
theorem depth_quantity_wraps :
    Reachable heavyBook
      ∧ heavyBook.GetOrderInfos.bids_ = [{ price_ := 100, quantity_ := 0 }]
      ∧ levelQuantity (levelAt heavyBook.bids_ 100) = 4294967296
      ∧ ¬ (∀ e ∈ heavyBook.GetOrderInfos.bids_,
            e.quantity_ = levelQuantity (levelAt heavyBook.bids_ e.price_)) := by
  refine ⟨heavyBook_reachable, rfl, rfl, ?_⟩
  intro h
  have := h { price_ := 100, quantity_ := 0 } (by decide)
  revert this
  decide

/-- C15 as amended (depth snapshot).  For every reachable book `GetOrderInfos`
returns one entry per bid level, in the order of the levels, which is strictly
descending in price, and one per ask level, strictly ascending; the quantity of
an entry is the sum of the remaining quantities of the orders of the level
reduced modulo 2 ^ 32, so the sum itself when that is below 2 ^ 32.  The call is
a function of the book alone and returns no book: it changes nothing. -/
theorem depth_snapshot (b : Ordebook) (h : Reachable b) :
    b.GetOrderInfos.bids_
        = b.bids_.map (fun l => { price_ := l.1, quantity_ := levelQuantity l.2 % 2 ^ 32 })
      ∧ b.GetOrderInfos.asks_
        = b.asks_.map (fun l => { price_ := l.1, quantity_ := levelQuantity l.2 % 2 ^ 32 })
      ∧ (b.GetOrderInfos.bids_.map (fun e => e.price_)).Pairwise (fun p q => p > q)
      ∧ (b.GetOrderInfos.asks_.map (fun e => e.price_)).Pairwise (fun p q => p < q)
      ∧ (∀ l ∈ b.bids_ ++ b.asks_, levelQuantity l.2 < 2 ^ 32 →
          (CreateLevelInfos l.1 l.2).quantity_ = levelQuantity l.2) := by
  have hw := h.inv.wf
  have hb : b.GetOrderInfos.bids_
      = b.bids_.map (fun l => { price_ := l.1, quantity_ := levelQuantity l.2 % 2 ^ 32 }) := by
    unfold Ordebook.GetOrderInfos
    simp only
    apply List.map_congr_left
    intro l _
    rw [← CreateLevelInfos_quantity l.1 l.2]
    rfl
  have ha : b.GetOrderInfos.asks_
      = b.asks_.map (fun l => { price_ := l.1, quantity_ := levelQuantity l.2 % 2 ^ 32 }) := by
    unfold Ordebook.GetOrderInfos
    simp only
    apply List.map_congr_left
    intro l _
    rw [← CreateLevelInfos_quantity l.1 l.2]
    rfl
  refine ⟨hb, ha, ?_, ?_, ?_⟩
  · rw [hb, List.map_map]
    have := hw.bidsSorted
    unfold SortedBy at this
    simp only [greater, decide_eq_true_eq] at this
    exact this
  · rw [ha, List.map_map]
    have := hw.asksSorted
    unfold SortedBy at this
    simp only [less, decide_eq_true_eq] at this
    exact this
  · intro l _ hlt
    rw [CreateLevelInfos_quantity, Nat.mod_eq_of_lt hlt]

theorem depth_snapshot_witness :
    Reachable quotedBook
      ∧ quotedBook.GetOrderInfos.bids_
        = quotedBook.bids_.map
            (fun l => { price_ := l.1, quantity_ := levelQuantity l.2 % 2 ^ 32 })
      ∧ quotedBook.GetOrderInfos
        = { bids_ := [{ price_ := 100, quantity_ := 14 }, { price_ := 99, quantity_ := 7 }]
            asks_ := [{ price_ := 101, quantity_ := 5 }] } :=
  ⟨quotedBook_reachable, (depth_snapshot quotedBook quotedBook_reachable).1, rfl⟩

/-- C1 (no crossed book).  On a reachable book, which is uncrossed, `AddOrder` of
an order with a fresh id that crosses the opposite side, `CanMatch` being true,
does not return a book: the first iteration of the matching loop pops the node
of the order it has filled and reads through the reference to that node. -/
theorem crossing_order_is_undefined (b : Ordebook) (h : Reachable b) (o : Order)
    (hfresh : mapContains b.orders_ o.orderId_ = false)
    (hc : b.CanMatch o.side_ o.price_ = true) :
    Uncrossed b ∧ b.AddOrder o = .error Error.undefined :=
  ⟨h.inv.uncrossed, AddOrder_crossing h.inv (mapContains_eq_false.1 hfresh) hc⟩

/-- The ask id 9, 5 @ 100, rests; the buy id 1, 3 @ 101, crosses it. -/
theorem crossing_order_is_undefined_witness :
    Reachable scenarioFour
      ∧ scenarioFour.CanMatch Side.Buy 101 = true
      ∧ scenarioFour.AddOrder (Order.new OrderType.GoodTillCancel 1 Side.Buy 101 3)
        = .error Error.undefined :=
  ⟨scenarioFour_reachable, rfl,
    (crossing_order_is_undefined scenarioFour scenarioFour_reachable
      (Order.new OrderType.GoodTillCancel 1 Side.Buy 101 3) rfl rfl).2⟩

/-- C4 (a FillandKill order never survives its call).  On a reachable book, which
holds no FillandKill order, `AddOrder` of a FillandKill order with a fresh id
returns the book unchanged when the order cannot match, and otherwise does not
return: the order is inserted, the loop fills a front order, pops its node and
reads through the reference to it, before the block that cancels a FillandKill
remainder is reached. -/
theorem fillAndKill_accepted_is_undefined (b : Ordebook) (h : Reachable b) (o : Order)
    (ht : o.orderType_ = OrderType.FillandKill)
    (hfresh : mapContains b.orders_ o.orderId_ = false) :
    NoFak b.bids_ ∧ NoFak b.asks_
      ∧ (b.CanMatch o.side_ o.price_ = false → b.AddOrder o = .ok ([], b))
      ∧ (b.CanMatch o.side_ o.price_ = true → b.AddOrder o = .error Error.undefined) :=
  ⟨h.inv.noFakBids, h.inv.noFakAsks,
    fun hc => AddOrder_rejected (Or.inr ⟨ht, by rw [hc]; simp⟩),
    fun hc => AddOrder_crossing h.inv (mapContains_eq_false.1 hfresh) hc⟩

/-- The FillandKill buy id 5, 8 @ 101, on `quotedBook`, whose only ask is 5 @ 101. -/
theorem fillAndKill_accepted_is_undefined_witness :
    Reachable quotedBook
      ∧ quotedBook.AddOrder (Order.new OrderType.FillandKill 5 Side.Buy 101 8)
        = .error Error.undefined :=
  ⟨quotedBook_reachable,
    (fillAndKill_accepted_is_undefined quotedBook quotedBook_reachable
      (Order.new OrderType.FillandKill 5 Side.Buy 101 8) rfl rfl).2.2.2 rfl⟩

/-- C10 (conservation).  Scenario 2: on the book holding the buy id 1, 10 @ 100,
`AddOrder` of the sell id 2, 5 @ 100, does not return a trade list: the sell is
filled, its node is popped and its id is read through the reference to the
node.  On a reachable book a call of `AddOrder` that returns has made no trade
and has filled no order: the book is the one of the call, or that book with the
order inserted. -/
theorem no_returned_trade :
    Reachable scenarioOne
      ∧ scenarioOne.AddOrder (Order.new OrderType.GoodTillCancel 2 Side.Sell 100 5)
        = .error Error.undefined
      ∧ ∀ (b : Ordebook), Reachable b → ∀ (o : Order) (trades : Trades) (b1 : Ordebook),
          b.AddOrder o = .ok (trades, b1) → trades = [] ∧ (b1 = b ∨ b1 = b.insertOrder o) := by
  refine ⟨scenarioOne_reachable, rfl, ?_⟩
  intro b hb o trades b1 hr
  obtain ⟨h1, h2⟩ := AddOrder_returned hb.inv hr
  exact ⟨h1, h2.imp id (fun h3 => h3.1)⟩

/-- C12 (time priority in a level).  The bids id 1, of 10, and id 2, of 4, rest
at 100 in `quotedBook`, 1 in front.  `AddOrder` of the sell id 5, 12 @ 100,
which is to fill 1 and then trade with 2, does not return a trade list: the
first iteration fills order 1, pops its node and reads through the reference to
it. -/
theorem fifo_reads_popped_order :
    Reachable quotedBook
      ∧ levelAt quotedBook.bids_ 100
        = [Order.new OrderType.GoodTillCancel 1 Side.Buy 100 10,
            Order.new OrderType.GoodTillCancel 2 Side.Buy 100 4]
      ∧ quotedBook.AddOrder (Order.new OrderType.GoodTillCancel 5 Side.Sell 100 12)
        = .error Error.undefined :=
  ⟨quotedBook_reachable, rfl, rfl⟩

/-- C13 (price priority across levels).  The bids of `quotedBook` rest at 100 and
at 99.  `AddOrder` of the sell id 5, 20 @ 99, which is to take the level at 100
and then the level at 99, does not return a trade list: the first iteration
fills order 1 at 100, pops its node and reads through the reference to it. -/
theorem price_priority_reads_popped_order :
    Reachable quotedBook
      ∧ quotedBook.bids_.map (fun l => l.1) = [100, 99]
      ∧ quotedBook.AddOrder (Order.new OrderType.GoodTillCancel 5 Side.Sell 99 20)
        = .error Error.undefined :=
  ⟨quotedBook_reachable, rfl, rfl⟩

/-- C19 (every trade involves the incoming order).  On the book holding the ask
id 9, 5 @ 100, `AddOrder` of the buy id 1, 5 @ 100, does not return a trade.
For any book and any step budget, the inner loop that returns has emitted no
trade and left the book as it was: an iteration that emits a trade has first
read through the reference to a popped node. -/
theorem trade_reads_popped_order :
    Reachable scenarioFour
      ∧ scenarioFour.AddOrder (Order.new OrderType.GoodTillCancel 1 Side.Buy 100 5)
        = .error Error.undefined
      ∧ ∀ (fuel : Nat) (bidPrice askPrice : Price) (b : Ordebook) (trades : Trades)
          (r : Ordebook × Trades),
          matchLevels fuel bidPrice askPrice b trades = .ok r → r = (b, trades) := by
  refine ⟨scenarioFour_reachable, rfl, ?_⟩
  intro fuel bidPrice askPrice b trades r hr
  rcases matchLevels_result fuel bidPrice askPrice b trades with h1 | h1 | h1
  · rw [h1] at hr
    cases hr
  · rw [h1] at hr
    cases hr
  · rw [h1] at hr
    cases hr
    rfl

/-- C20 (matching is exhaustive).  The ask id 4, 5 @ 101, is what rests in
`quotedBook` against the buy id 5, 8 @ 101.  `AddOrder` of that order, which is
to trade 5 and rest with 3, does not return: the first iteration fills the
ask, pops its node and reads through the reference to it. -/
theorem exhaustive_match_reads_popped_order :
    Reachable quotedBook
      ∧ sideOrders quotedBook.asks_ = [Order.new OrderType.GoodTillCancel 4 Side.Sell 101 5]
      ∧ quotedBook.AddOrder (Order.new OrderType.GoodTillCancel 5 Side.Buy 101 8)
        = .error Error.undefined :=
  ⟨quotedBook_reachable, rfl, rfl⟩

end LimitOrderbook
